import Mathlib

set_option maxHeartbeats 1000000

/-!
Shallow embedding of the bluetree plant-mesh generator.

The definitions below are translated from `src/plant_generator/mesh.cpp`,
`src/plant_generator/plant.cpp` and `src/plant_generator/leaf.cpp`.
Types and routines of the repository that are not part of those sources
(the `Path`, `Stem`, `Spline` classes and the vector/quaternion/intersection
math library) are modelled from the spec; each such definition carries a
doc comment saying so.  Float arithmetic is embedded over `ℚ`; the only
places the source inspects a float's classification (`std::isnan` on a
stem location, the `std::isinf` failure sentinel of `moveToSurface`) are
modelled by the `F` scalar type and by an `Option` result respectively.
-/

namespace PG

/-- Modelled from the spec: classification-carrying scalar for stored
coordinates.  The mesh code inspects coordinates only through
`std::isnan` (`Mesh::hasValidLocation`) and `std::isinf` (the collar
failure sentinel, embedded as `Option` below); all arithmetic on
coordinates lives in the math library that is outside the mesh sources
and is abstracted in `Geom`. -/
inductive F where
  | fin (q : ℚ)
  | nan
  | inf
  | ninf
deriving DecidableEq, Repr

instance : Inhabited F := ⟨F.fin 0⟩

/-- Translation of `std::isnan` on the embedded scalar. -/
def F.isnan : F → Bool
  | F.nan => true
  | _ => false

/-- Two-component float vector (`pg::Vec2`), used for uv, joint weights
and joint indices. -/
structure V2 where
  x : ℚ
  y : ℚ
deriving DecidableEq, Repr, Inhabited

/-- Three-component float vector (`pg::Vec3`) over the classification
scalar `F`. -/
structure V3 where
  x : F
  y : F
  z : F
deriving DecidableEq, Repr, Inhabited

/-- Quaternion (`pg::Quat`); its algebra is part of the missing math
library and is abstracted in `Geom`. -/
structure Quat where
  qx : ℚ
  qy : ℚ
  qz : ℚ
  qw : ℚ
deriving DecidableEq, Repr, Inhabited

/-- Cross-section template vertex (`pg::SVertex`). -/
structure SVertex where
  position : V3
  normal : V3
  uv : V2
deriving DecidableEq, Repr, Inhabited

/-- Output vertex (`pg::DVertex`): position, normal, uv, two joint
indices and two joint weights. -/
structure DVertex where
  position : V3
  normal : V3
  uv : V2
  indices : V2
  weights : V2
deriving DecidableEq, Repr, Inhabited

/-- Deformation joint: modelled from the spec as `(id, path_index)`. -/
structure Joint where
  id : Nat
  pathIndex : Nat
deriving DecidableEq, Repr, Inhabited

/-- Modelled from the spec: the interpolating spline of a path (degree
and control points); only the degree and the last control points are
read by the collar code. -/
structure Spline where
  degree : Nat
  controls : List V3
deriving DecidableEq, Repr, Inhabited

/-- Modelled from the spec: a stem path -- ordered 3D samples, a radius
per sample, per-segment arc lengths (the source computes them as
magnitudes of sample differences), a subdivision count and the spline. -/
structure Path where
  points : List V3
  segLength : List ℚ
  radii : List ℚ
  divisions : Nat
  spline : Spline
deriving DecidableEq, Repr, Inhabited

/-- Number of path samples (`Path::getSize`). -/
def Path.size (p : Path) : Nat := p.points.length

/-- Sample accessor (`Path::get(index)`). -/
def Path.get (p : Path) (i : Nat) : V3 := p.points.getD i default

/-- Modelled from the spec: arc length between two sample indices
(`Path::getDistance(start, end)`), the sum of the segment lengths in
between. -/
def Path.getDistance2 (p : Path) (s e : Nat) : ℚ :=
  ((p.segLength.drop s).take (e - s)).sum

/-- Modelled from the spec: arc length from the stem base to a sample
index (`Path::getDistance(index)`). -/
def Path.getDistanceTo (p : Path) (i : Nat) : ℚ := (p.segLength.take i).sum

/-- Modelled from the spec: length of the segment that ends at the given
sample (`Path::getSegmentLength(index)`). -/
def Path.getSegmentLength (p : Path) (i : Nat) : ℚ := p.segLength.getD (i - 1) 0

/-- Modelled from the spec: total path length (`Path::getLength`). -/
def Path.length (p : Path) : ℚ := p.segLength.sum

/-- Modelled from the spec: index search helper for `Path::getIndex`. -/
def Path.getIndexAux : List ℚ → ℚ → Nat
  | [], _ => 0
  | l :: ls, pos => if pos < l then 0 else Path.getIndexAux ls (pos - l) + 1

/-- Modelled from the spec: `Path::getIndex(position)`, the index of the
last sample whose arc distance from the stem base does not exceed the
given position. -/
def Path.getIndex (p : Path) (pos : ℚ) : Nat :=
  min (Path.getIndexAux p.segLength pos) (p.size - 1)

/-- Leaf record (`pg::Leaf`, leaf.h/leaf.cpp): attachment position,
scale, rotation, material id and mesh id. -/
structure Leaf where
  position : ℚ
  scale : V3
  rotation : Quat
  material : Nat
  mesh : Nat
deriving DecidableEq, Repr, Inhabited

/-- Modelled from the spec: the per-stem data consumed by the mesh
engine through the `Stem` interface (`stem.h` is not among the mesh
sources).  `key` stands for the stem's identity (the source uses the
`Stem*` pointer as map key); `distance` is `Stem::getDistance`, the
distance from the parent's base. -/
structure StemData where
  key : Nat
  materialOuter : Nat
  materialInner : Nat
  sectionDivisions : Nat
  collarDivisions : Nat
  swelling : V2
  distance : ℚ
  location : V3
  minRadius : ℚ
  path : Path
  joints : List Joint
  leaves : List Leaf
deriving DecidableEq, Repr, Inhabited

/-- Modelled from the spec: the stem tree (root plus recursively owned
children; the source links stems with child/sibling pointers). -/
inductive StemT where
  | mk (data : StemData) (children : List StemT)
deriving Repr, Inhabited

/-- Data of a tree node. -/
def StemT.data : StemT → StemData
  | StemT.mk d _ => d

/-- Children of a tree node. -/
def StemT.children : StemT → List StemT
  | StemT.mk _ c => c

/-- Material record; only the aspect ratio is consumed by the mesh
engine (`Material::getRatio`). -/
structure Material where
  ratio : ℚ
deriving DecidableEq, Repr, Inhabited

/-- Leaf template geometry (`pg::Geometry`): points plus indices. -/
structure Geometry where
  points : List DVertex
  indices : List Nat
deriving DecidableEq, Repr, Inhabited

/-- Recorded buffer range (`pg::Segment`, defined in mesh.h, modelled
from the spec): the owning stem, the leaf index for leaf segments, and
the vertex/index ranges inside one material buffer. -/
structure Segment where
  stem : StemData
  leafIndex : Nat
  vertexStart : Nat
  vertexCount : Nat
  indexStart : Nat
  indexCount : Nat
deriving DecidableEq, Repr, Inhabited

/-- Ray for the surface projection (`pg::Ray`). -/
structure Ray where
  origin : V3
  direction : V3
deriving DecidableEq, Repr, Inhabited

/-- Matrix used by the collar scale; built by the missing math library,
so only its action on vectors is kept. -/
structure Mat4 where
  apply : V3 → V3

/-- Cross-section template cache (`pg::CrossSection`): a resolution and
one template vertex per division plus the duplicated seam vertex. -/
structure CrossSection where
  resolution : Nat
  vertices : List SVertex

/-- Plant-level tables consumed by the mesh engine (`pg::Plant`):
material and leaf-mesh maps keyed by id, plus the stem tree root. -/
structure Plant where
  root : Option StemT
  materials : List (Nat × Material)
  leafMeshes : List (Nat × Geometry)

/-- Modelled from the spec: the vector / quaternion / spline /
intersection routines of the math library, which is not part of the
mesh-synthesis sources.  The mesh code never inspects the values these
produce, so they are abstract parameters of the embedding. -/
structure Geom where
  vadd : V3 → V3 → V3
  vsub : V3 → V3 → V3
  smul : ℚ → V3 → V3
  mag : V3 → ℚ
  normalizeV : V3 → V3
  cross : V3 → V3 → V3
  rotate : Quat → V3 → ℚ → V3
  lerp : V3 → V3 → ℚ → V3
  qmul : Quat → Quat → Quat
  rotateIntoVecQ : V3 → V3 → Quat
  projectOntoPlane : V3 → V3 → V3
  intersectsTriangle : Ray → V3 → V3 → V3 → ℚ
  splinePoint : List V3 → ℚ → V3
  pathDir : Path → Nat → V3
  pathAvgDir : Path → Nat → V3
  pathIntermediateDir : Path → ℚ → V3
  pathIntermediate : Path → ℚ → V3
  collarAxesScale : V3 → V3 → V2 → Mat4
  templateVertex : Nat → Nat → SVertex
  leafTransform : Quat → V3 → V3 → DVertex → DVertex
  perpPlanes : Geometry
  cosQ : ℚ → ℚ
  sinQ : ℚ → ℚ

/-- Trivial instantiation of the abstract math layer, used to evaluate
the embedding on concrete inputs. -/
def trivialGeom : Geom where
  vadd := fun a _ => a
  vsub := fun a _ => a
  smul := fun _ v => v
  mag := fun _ => 0
  normalizeV := fun v => v
  cross := fun a _ => a
  rotate := fun _ v _ => v
  lerp := fun a _ _ => a
  qmul := fun a _ => a
  rotateIntoVecQ := fun _ _ => default
  projectOntoPlane := fun a _ => a
  intersectsTriangle := fun _ _ _ _ => 0
  splinePoint := fun _ _ => default
  pathDir := fun _ _ => default
  pathAvgDir := fun _ _ => default
  pathIntermediateDir := fun _ _ => default
  pathIntermediate := fun _ _ => default
  collarAxesScale := fun _ _ _ => ⟨fun v => v⟩
  templateVertex := fun _ _ => default
  leafTransform := fun _ _ _ v => v
  perpPlanes := ⟨[default], [0, 0, 0]⟩
  cosQ := fun _ => 0
  sinQ := fun _ => 0

/-- Walk state (`Mesh::State`, declared in mesh.h, modelled from its
uses in mesh.cpp).  `sectionIdx` is the source's `section` field (the
word `section` is reserved in Lean).  `State state = {}` in the source
value-initializes every member, which is the `default` value here. -/
structure State where
  mesh : Nat
  segment : Segment
  prevIndex : Nat
  texOffset : ℚ
  sectionIdx : Nat
  jointID : Nat
  jointIndex : Nat
  jointOffset : ℚ
  prevRotation : Quat
  prevDirection : V3
deriving DecidableEq, Repr, Inhabited

/-- Whether a stem has joints (`Stem::hasJoints`, modelled from the
spec: true when the joint list is nonempty). -/
def StemData.hasJoints (s : StemData) : Bool := !s.joints.isEmpty

/-- Index scan of `Mesh::getJoint`: position of the first joint whose
path index exceeds the sample index (the list length when none does). -/
def getJointScan (index : Nat) (joints : List Joint) : Nat :=
  joints.findIdx (fun j => index < j.pathIndex)

/-- Translation of `Mesh::getJoint` (mesh.cpp:602): locate the joint
whose region contains the path position.  The scan stops at the first
joint past the sample and steps back one unless it is the first; when
no joint lies past the sample the last joint is returned. -/
def getJoint (position : ℚ) (stem : StemData) : Nat × Joint :=
  let index := stem.path.getIndex position
  let joints := stem.joints
  let k := getJointScan index joints
  if k < joints.length then
    if k = 0 then (0, joints.getD 0 default)
    else (k - 1, joints.getD (k - 1) default)
  else (joints.length - 1, joints.getD (joints.length - 1) default)

/-- Translation of `Mesh::incrementJoint` (mesh.cpp:621): advance to the
next joint when the current section reaches its path index. -/
def incrementJoint (st : State) (joints : List Joint) : State :=
  if st.jointIndex + 1 < joints.length then
    let nextJoint := joints.getD (st.jointIndex + 1) default
    if nextJoint.pathIndex = st.sectionIdx then
      { st with jointIndex := st.jointIndex + 1
                jointID := nextJoint.id
                jointOffset := 0 }
    else st
  else st

/-- Translation of `Mesh::setJointInfo` (mesh.cpp:669): blend weights
and joint indices from the offset into the current joint's region.
Returns `(weights, indices)`. -/
def setJointInfo (stem : StemData) (jointOffset : ℚ) (jointIndex : Nat) :
    V2 × V2 :=
  let joints := stem.joints
  let path := stem.path
  let pathIndex := (joints.getD jointIndex default).pathIndex
  let jointID := (joints.getD jointIndex default).id
  let lastJoint := decide (jointIndex + 1 ≥ joints.length)
  let distance :=
    if lastJoint then path.getDistance2 pathIndex (path.size - 1)
    else path.getDistance2 pathIndex
      ((joints.getD (jointIndex + 1) default).pathIndex)
  let ratio := jointOffset / distance
  let first := decide (ratio < 1/2) && decide (jointIndex = 0)
  let last := decide (ratio > 1/2) && lastJoint
  if ratio = 1/2 || first || last then
    (⟨1, 0⟩, ⟨(jointID : ℚ), (jointID : ℚ)⟩)
  else if ratio > 1/2 then
    let nextID := (joints.getD (jointIndex + 1) default).id
    let r := jointOffset / distance - 1/2
    (⟨1 - r, r⟩, ⟨(jointID : ℚ), (nextID : ℚ)⟩)
  else
    let prevID := (joints.getD (jointIndex - 1) default).id
    let r := jointOffset / distance
    (⟨1/2 + r, 1/2 - r⟩, ⟨(jointID : ℚ), (prevID : ℚ)⟩)

/-- Translation of `Mesh::updateJointState` (mesh.cpp:634): advance the
joint state for the current section and produce `(state, indices,
weights)` for the ring being emitted.  In the final branch the source
adds `magnitude(path[section] - path[section-1])` to the running offset,
which is the length of segment `section - 1`, stored directly in the
path model. -/
def updateJointState (st : State) : State × V2 × V2 :=
  let stem := st.segment.stem
  let path := stem.path
  let joints := stem.joints
  let st := incrementJoint st joints
  let pathIndex := (joints.getD st.jointIndex default).pathIndex
  if st.jointIndex = 0 ∧ st.sectionIdx ≤ pathIndex then
    (st, ⟨(st.jointID : ℚ), (st.jointID : ℚ)⟩, ⟨1, 0⟩)
  else if st.sectionIdx = 0 ∨ st.sectionIdx = path.size - 1 then
    (st, ⟨(st.jointID : ℚ), (st.jointID : ℚ)⟩, ⟨1, 0⟩)
  else if st.sectionIdx = pathIndex then
    let prevID := (joints.getD (st.jointIndex - 1) default).id
    (st, ⟨(st.jointID : ℚ), (prevID : ℚ)⟩, ⟨1/2, 1/2⟩)
  else
    let st := { st with
      jointOffset := st.jointOffset + path.getSegmentLength st.sectionIdx }
    let (weights, indices) := setJointInfo stem st.jointOffset st.jointIndex
    (st, indices, weights)

/-- Translation of `Mesh::setInitialJointState` (mesh.cpp:580): a stem
without joints inherits a single joint id from its ancestry. -/
def setInitialJointState (parentStem : Option StemData)
    (parentState : State) (st : State) : State :=
  let stem := st.segment.stem
  let st := { st with jointID := 0, jointIndex := 0, jointOffset := 0 }
  if stem.joints.isEmpty ∧
      (parentStem.isNone ∨ !(parentStem.getD default).hasJoints) then
    { st with jointID := parentState.jointID }
  else if stem.joints.isEmpty then
    let pair := getJoint stem.distance (parentStem.getD default)
    { st with jointID := pair.2.id, jointIndex := pair.1 }
  else
    { st with jointID := (stem.joints.getD 0 default).id }

/-- One per-material buffer: the source keeps four parallel vectors
(`vertices`, `indices`, `stemSegments`, `leafSegments`), always resized
together by `initBuffer`; they are bundled into one record per buffer
here.  The source's segment maps are keyed by stem pointer (plus leaf
index); during one pass all keys are distinct, so each `emplace` is an
insertion, modelled as appending to a list. -/
structure MBuf where
  vertices : List DVertex
  indices : List Nat
  stemSegs : List Segment
  leafSegs : List Segment
deriving DecidableEq, Repr, Inhabited

/-- The mesh object's buffer state plus the cached cross-section
template (`Mesh::vertices/indices/stemSegments/leafSegments` and
`Mesh::crossSection`). -/
structure MeshState where
  bufs : List MBuf
  crossSection : CrossSection

/-- Initial mesh object (no buffers, empty template cache). -/
def emptyMesh : MeshState := ⟨[], ⟨0, []⟩⟩

/-- Vertex array of buffer `m` (out-of-range buffers read as empty; the
source indexes `vertices[mesh]` directly and assumes validity). -/
def vertsAt (ms : MeshState) (m : Nat) : List DVertex :=
  (ms.bufs.getD m default).vertices

/-- Index array of buffer `m`. -/
def indsAt (ms : MeshState) (m : Nat) : List Nat :=
  (ms.bufs.getD m default).indices

/-- Stem segments recorded in buffer `m`. -/
def stemSegsAt (ms : MeshState) (m : Nat) : List Segment :=
  (ms.bufs.getD m default).stemSegs

/-- Leaf segments recorded in buffer `m`. -/
def leafSegsAt (ms : MeshState) (m : Nat) : List Segment :=
  (ms.bufs.getD m default).leafSegs

/-- All segments recorded in buffer `m` (stem and leaf alike). -/
def allSegsAt (ms : MeshState) (m : Nat) : List Segment :=
  stemSegsAt ms m ++ leafSegsAt ms m

/-- Pointwise update of buffer `m` (a no-op when `m` is out of range,
where the C++ indexing would be undefined). -/
def modifyBuf (m : Nat) (f : MBuf → MBuf) (ms : MeshState) : MeshState :=
  { ms with bufs := ms.bufs.set m (f (ms.bufs.getD m default)) }

/-- `std::vector::resize`: truncate or pad with default elements. -/
def listResize (l : List α) (n : Nat) (d : α) : List α :=
  l.take n ++ List.replicate (n - l.length) d

/-- `vertices[m].push_back(v)`. -/
def pushVert (m : Nat) (v : DVertex) : MeshState → MeshState :=
  modifyBuf m (fun b => { b with vertices := b.vertices ++ [v] })

/-- Append a batch of vertices to buffer `m` (a run of `push_back`s). -/
def pushVerts (m : Nat) (vs : List DVertex) : MeshState → MeshState :=
  modifyBuf m (fun b => { b with vertices := b.vertices ++ vs })

/-- Append a batch of indices to buffer `m` (a run of `push_back`s). -/
def pushInds (m : Nat) (is : List Nat) : MeshState → MeshState :=
  modifyBuf m (fun b => { b with indices := b.indices ++ is })

/-- `vertices[m][k] = v` (no-op out of range, where the C++ write would
be undefined). -/
def setVert (m k : Nat) (v : DVertex) : MeshState → MeshState :=
  modifyBuf m (fun b => { b with vertices := b.vertices.set k v })

/-- In-place update of one field of `vertices[m][k]`. -/
def updateVert (m k : Nat) (f : DVertex → DVertex) (ms : MeshState) :
    MeshState :=
  setVert m k (f ((vertsAt ms m).getD k default)) ms

/-- `vertices[m].resize(n)`. -/
def resizeVerts (m n : Nat) : MeshState → MeshState :=
  modifyBuf m (fun b => { b with vertices := listResize b.vertices n default })

/-- `indices[m].resize(n)`. -/
def resizeInds (m n : Nat) : MeshState → MeshState :=
  modifyBuf m (fun b => { b with indices := listResize b.indices n default })

/-- `stemSegments[m].emplace(stem, segment)`. -/
def recordStemSeg (m : Nat) (s : Segment) : MeshState → MeshState :=
  modifyBuf m (fun b => { b with stemSegs := b.stemSegs ++ [s] })

/-- `leafSegments[m].emplace(LeafID(stem, leafIndex), segment)`. -/
def recordLeafSeg (m : Nat) (s : Segment) : MeshState → MeshState :=
  modifyBuf m (fun b => { b with leafSegs := b.leafSegs ++ [s] })

/-- Translation of `Mesh::selectBuffer` (mesh.cpp:726): the buffer index
is the material id. -/
def selectBuffer (material : Nat) : Nat := material

/-- Translation of `Mesh::initBuffer` (mesh.cpp:731): one empty buffer
per material table entry. -/
def initBuffer (plant : Plant) (ms : MeshState) : MeshState :=
  { ms with bufs := List.replicate plant.materials.length default }

/-- Translation of `Mesh::addTriangle` (mesh.cpp:717). -/
def addTriangle (ms : MeshState) (mesh a b c : Nat) : MeshState :=
  pushInds mesh [a, b, c] ms

/-- Loop body of `Mesh::addTriangleRing`; the counter is the number of
remaining iterations. -/
def addTriangleRingAux (mesh : Nat) :
    Nat → Nat → Nat → MeshState → MeshState
  | _, _, 0, ms => ms
  | prevIndex, index, n + 1, ms =>
    let ms := addTriangle ms mesh index (index + 1) prevIndex
    let index := index + 1
    let ms := addTriangle ms mesh prevIndex index (prevIndex + 1)
    addTriangleRingAux mesh (prevIndex + 1) index n ms

/-- Translation of `Mesh::addTriangleRing` (mesh.cpp:220): `divisions`
pairs of triangles between two rings. -/
def addTriangleRing (prevIndex index divisions mesh : Nat)
    (ms : MeshState) : MeshState :=
  addTriangleRingAux mesh prevIndex index divisions ms

/-- The float constant `PI` of mesh.cpp (3.14159265359f). -/
def piQ : ℚ := 3.14159265359

/-- Translation of `Plant::getMaterial` (plant.cpp:226):
`materials.at(id)` throws `std::out_of_range` when the id is absent,
embedded as `Except`. -/
def Plant.getMaterialE (p : Plant) (id : Nat) : Except String Material :=
  match p.materials.find? (fun kv => kv.1 = id) with
  | some kv => Except.ok kv.2
  | none => Except.error "out_of_range"

/-- Total variant of the material lookup used inside the synthesis-pass
model.  The source's `materials.at` throws for absent ids (captured by
`Plant.getMaterialE`); the pass itself assumes every referenced id is
present. -/
def Plant.getMaterialD (p : Plant) (id : Nat) : Material :=
  ((p.materials.find? (fun kv => kv.1 = id)).getD (0, default)).2

/-- Translation of `Plant::getLeafMesh` (plant.cpp:251): id `0` yields
the default perpendicular-planes geometry; any other id is looked up
with `leafMeshes.at`, which throws `std::out_of_range` when absent. -/
def Plant.getLeafMeshE (p : Plant) (id : Nat) (G : Geom) :
    Except String Geometry :=
  if id ≠ 0 then
    match p.leafMeshes.find? (fun kv => kv.1 = id) with
    | some kv => Except.ok kv.2
    | none => Except.error "out_of_range"
  else Except.ok G.perpPlanes

/-- Total variant of the leaf-mesh lookup used inside the synthesis-pass
model (see `Plant.getLeafMeshE` for the faithful throwing behavior). -/
def Plant.getLeafMeshD (p : Plant) (id : Nat) (G : Geom) : Geometry :=
  if id ≠ 0 then ((p.leafMeshes.find? (fun kv => kv.1 = id)).getD (0, default)).2
  else G.perpPlanes

/-- Modelled from the spec: `Plant::getRadius(stem, index)` (not among
the sources) -- the stem path's radius at the sample. -/
def Plant.getRadius (_ : Plant) (stem : StemData) (i : Nat) : ℚ :=
  stem.path.radii.getD i 0

/-- Translation of `getAspect` (mesh.cpp:194): aspect ratio of the
stem's outer material, `1` for the null material. -/
def getAspect (plant : Plant) (stem : StemData) : ℚ :=
  if stem.materialOuter > 0 then (plant.getMaterialD stem.materialOuter).ratio
  else 1

/-- Translation of `Mesh::getTextureLength` (mesh.cpp:206). -/
def getTextureLength (plant : Plant) (stem : StemData) (sectionIdx : Nat) :
    ℚ :=
  if sectionIdx > 0 then
    let length := stem.path.getSegmentLength sectionIdx
    let radius := plant.getRadius stem (sectionIdx - 1)
    let aspect := getAspect plant stem
    (length * aspect) / (radius * 2 * piQ)
  else 0

/-- Modelled from the spec: `CrossSection::generate(divisions)` builds
the template ring of `divisions + 1` profile points (the seam vertex is
duplicated; all ring-stride arithmetic of mesh.cpp relies on this
count).  The profile contents come from the cross-section source that is
outside the mesh sources and are abstract. -/
def CrossSection.generate (G : Geom) (divisions : Nat) : CrossSection :=
  ⟨divisions, (List.range (divisions + 1)).map (G.templateVertex divisions)⟩

/-- `CrossSection::getResolution`. -/
def CrossSection.getResolution (cs : CrossSection) : Nat := cs.resolution

/-- Translation of `Mesh::hasValidLocation` (mesh.cpp:43): only the x
coordinate is tested, and only for NaN. -/
def hasValidLocation (stem : StemData) : Bool := !stem.location.x.isnan

/-- Translation of `Mesh::setInitialRotation` (mesh.cpp:112): align the
first ring at a child's base to the parent direction; the root uses the
identity rotation and the world up axis. -/
def setInitialRotation (G : Geom) (parentStem : Option StemData)
    (st : State) : State :=
  match parentStem with
  | some parent =>
    let stem := st.segment.stem
    let position := stem.distance
    let parentDirection := G.pathIntermediateDir parent.path position
    let stemDirection := G.pathDir stem.path 0
    let up : V3 := ⟨F.fin 0, F.fin 1, F.fin 0⟩
    let prevRotation := G.rotateIntoVecQ up stemDirection
    let sideways : V3 := ⟨F.fin 1, F.fin 0, F.fin 0⟩
    let sideways := G.normalizeV (G.rotate prevRotation sideways 0)
    let up2 := G.normalizeV (G.projectOntoPlane parentDirection stemDirection)
    let rotation := G.rotateIntoVecQ sideways up2
    { st with prevRotation := G.qmul rotation prevRotation,
              prevDirection := stemDirection }
  | none =>
    { st with prevRotation := ⟨0, 0, 0, 1⟩,
              prevDirection := ⟨F.fin 0, F.fin 1, F.fin 0⟩ }

/-- Translation of `Mesh::rotateSection` (mesh.cpp:142): the ring
rotation is relative to the previous ring's rotation. -/
def rotateSection (G : Geom) (st : State) : Quat × State :=
  let stem := st.segment.stem
  let direction := G.pathAvgDir stem.path st.sectionIdx
  let rotation := G.qmul (G.rotateIntoVecQ st.prevDirection direction)
    st.prevRotation
  (rotation, { st with prevRotation := rotation, prevDirection := direction })

/-- Translation of `Mesh::addSection` (mesh.cpp:155): emit one ring of
transformed template vertices carrying the current uv offset and
skinning data. -/
def addSection (G : Geom) (plant : Plant) (ms : MeshState) (st : State)
    (rotation : Quat) (cs : CrossSection) : MeshState × State :=
  let stem := st.segment.stem
  let uvY := getTextureLength plant stem st.sectionIdx + st.texOffset
  let st := { st with texOffset := uvY }
  let location := G.vadd stem.location (stem.path.get st.sectionIdx)
  let pr :=
    if 0 < stem.joints.length then updateJointState st
    else (st, (⟨(st.jointID : ℚ), 0⟩ : V2), (⟨1, 0⟩ : V2))
  let st := pr.1
  let indices := pr.2.1
  let weights := pr.2.2
  let radius := plant.getRadius stem st.sectionIdx
  let newVerts := cs.vertices.map (fun sv =>
    ({ position := G.vadd (G.rotate rotation (G.smul radius sv.position) 1)
         location
       normal := G.normalizeV (G.rotate rotation sv.normal 0)
       uv := ⟨sv.uv.x, uvY⟩
       indices := indices
       weights := weights } : DVertex))
  (pushVerts st.mesh newVerts ms, st)

/-- Translation of `Mesh::getBranchCollarSize` (mesh.cpp:267). -/
def getBranchCollarSize (stem : StemData) : Nat :=
  (stem.sectionDivisions + 1) * stem.collarDivisions

/-- Translation of `Mesh::reserveBranchCollarSpace` (mesh.cpp:260). -/
def reserveBranchCollarSpace (stem : StemData) (mesh : Nat)
    (ms : MeshState) : MeshState :=
  resizeVerts mesh (getBranchCollarSize stem + (vertsAt ms mesh).length) ms

/-- Translation of `Mesh::getBranchCollarScale` (mesh.cpp:274): the
anisotropic matrix scaling two axes of a {parent-tangent, child-tangent}
basis by the swelling factors.  The basis completion and matrix products
come from the missing math library and are abstracted behind
`Geom.collarAxesScale`. -/
def getBranchCollarScale (G : Geom) (child parent : StemData) : Mat4 :=
  let position := child.distance
  let yaxis := G.pathIntermediateDir parent.path position
  let xaxis := G.pathDir child.path 0
  G.collarAxesScale yaxis xaxis child.swelling

/-- Triangle scan of `Mesh::moveToSurface` (mesh.cpp:300-316): walk the
parent segment's index range three entries at a time, keeping the
nearest accepted intersection parameter and the triangle normal of the
best hit. -/
def surfaceScan (G : Geom) (ms : MeshState) (mesh : Nat) (ray : Ray) :
    Nat → Nat → Option (ℚ × V3) → Option (ℚ × V3)
  | _, 0, acc => acc
  | i, n + 1, acc =>
    let p1 := ((vertsAt ms mesh).getD ((indsAt ms mesh).getD i 0)
      default).position
    let p2 := ((vertsAt ms mesh).getD ((indsAt ms mesh).getD (i + 1) 0)
      default).position
    let p3 := ((vertsAt ms mesh).getD ((indsAt ms mesh).getD (i + 2) 0)
      default).position
    let s := -(G.intersectsTriangle ray p1 p3 p2)
    let keep : Bool :=
      match acc with
      | none => decide (s ≠ 0)
      | some pr => decide (s ≠ 0) && decide (s < pr.1)
    let acc := if keep then some (s, G.cross (G.vsub p1 p2) (G.vsub p1 p3))
      else acc
    surfaceScan G ms mesh ray (i + 3) n acc

/-- Translation of `Mesh::moveToSurface` (mesh.cpp:295): project a
vertex onto the parent surface along a ray.  The source signals failure
by setting the position to infinity, which the caller immediately tests
with `std::isinf`; the fallible call is embedded as an `Option`. -/
def moveToSurface (G : Geom) (ms : MeshState) (vertex : DVertex)
    (ray : Ray) (parent : Segment) (mesh : Nat) : Option DVertex :=
  let length := G.mag ray.direction
  let dir := G.normalizeV ray.direction
  let nray : Ray := ⟨ray.origin, dir⟩
  let best := surfaceScan G ms mesh nray parent.indexStart
    ((parent.indexCount + 2) / 3) none
  match best with
  | some pr =>
    let offset := G.smul (pr.1 - length) dir
    some { vertex with normal := G.normalizeV pr.2,
                       position := G.vsub vertex.position offset }
  | none => none

/-- Collar fill loop of `Mesh::connectCollar` (mesh.cpp:393-403): sample
the per-division spline at `collarDivisions` interior parameters and
write the reserved block (the source's fresh `DVertex` leaves normal and
uv default until the post-passes rewrite them). -/
def collarFillLoop (G : Geom) (mesh1 : Nat) (controls : List V3)
    (indicesW weightsW : V2) (baseIndex sectionDivisions : Nat)
    (delta : ℚ) : ℚ → Nat → Nat → MeshState → MeshState
  | _, _, 0, ms => ms
  | t, j, n + 1, ms =>
    let vertex : DVertex :=
      { position := G.splinePoint controls t
        normal := default
        uv := default
        indices := indicesW
        weights := weightsW }
    let offset := baseIndex + (sectionDivisions + 1) * j
    let ms := setVert mesh1 offset vertex ms
    collarFillLoop G mesh1 controls indicesW weightsW baseIndex
      sectionDivisions delta (t + delta) (j + 1) n ms

/-- One iteration of the collar projection loop of `Mesh::connectCollar`
(mesh.cpp:350-404) for angular division `i`; `false` reports a failed
surface projection (the caller rolls the buffers back).  The
loop-invariant locals of the source (`mesh1`, `mesh2`, divisions, scale,
spline degree and exit direction) are pure and recomputed here from the
same inputs. -/
def collarIter (G : Geom) (child parent : Segment) (vertexStart i : Nat)
    (ms : MeshState) : MeshState × Bool :=
  let mesh1 := selectBuffer child.stem.materialOuter
  let mesh2 := selectBuffer parent.stem.materialOuter
  let sectionDivisions := child.stem.sectionDivisions
  let collarDivisions := child.stem.collarDivisions
  let collarSize := getBranchCollarSize child.stem
  let scale := getBranchCollarScale G child.stem parent.stem
  let spline := child.stem.path.spline
  let degree := spline.degree
  let direction :=
    if degree = 3 then
      G.vsub (spline.controls.getD 3 default) (spline.controls.getD 2 default)
    else default
  let index := child.vertexStart + i
  let nextIndex := index + collarSize + sectionDivisions + 1
  let location := child.stem.location
  let initPoint := (vertsAt ms mesh1).getD index default
  let scaledPos := G.vadd (scale.apply (G.vsub initPoint.position location))
    location
  let rayOrigin := ((vertsAt ms mesh1).getD nextIndex default).position
  let ray : Ray := ⟨rayOrigin, G.vsub rayOrigin scaledPos⟩
  match moveToSurface G ms { (default : DVertex) with position := scaledPos }
      ray parent mesh2 with
  | none => (ms, false)
  | some scaledPoint =>
    let scaledPoint := { scaledPoint with
      weights := ((vertsAt ms mesh1).getD index default).weights
      indices := ((vertsAt ms mesh1).getD index default).indices }
    let ms := setVert mesh1 index scaledPoint ms
    let ray2 : Ray := ⟨rayOrigin, G.vsub rayOrigin initPoint.position⟩
    match moveToSurface G ms initPoint ray2 parent mesh2 with
    | none => (ms, false)
    | some initProj =>
      let point := ((vertsAt ms mesh1).getD nextIndex default).position
      let controls := [scaledPoint.position, initProj.position,
        if degree = 3 then G.vsub point direction else point, point]
      let delta : ℚ := 1 / ((collarDivisions : ℚ) + 1)
      let ms := collarFillLoop G mesh1 controls scaledPoint.indices
        scaledPoint.weights (vertexStart + i) sectionDivisions delta delta 0
        collarDivisions ms
      (ms, true)

/-- The projection loop of `Mesh::connectCollar` over all angular
divisions; stops at the first failure. -/
def connectCollarLoop (G : Geom) (child parent : Segment)
    (vertexStart : Nat) : Nat → Nat → MeshState → MeshState × Bool
  | _, 0, ms => (ms, true)
  | i, n + 1, ms =>
    match collarIter G child parent vertexStart i ms with
    | (ms, false) => (ms, false)
    | (ms, true) => connectCollarLoop G child parent vertexStart (i + 1) n ms

/-- Stitching loop of `Mesh::connectCollar` (mesh.cpp:406-412): triangle
rings between ring A, the interior collar rings and ring B. -/
def collarTriRingLoop (mesh1 sectionDivisions : Nat) :
    Nat → Nat → Nat → MeshState → MeshState
  | _, _, 0, ms => ms
  | index1, index2, n + 1, ms =>
    let ms := addTriangleRing index1 index2 sectionDivisions mesh1 ms
    collarTriRingLoop mesh1 sectionDivisions index2
      (index2 + sectionDivisions + 1) n ms

/-- Inner loop of `Mesh::setBranchCollarNormals` (mesh.cpp:432-438). -/
def collarNormalsJLoop (G : Geom) (mesh resolution : Nat)
    (index1 : Nat) (normal1 normal2 : V3) (divisions : Nat) :
    Nat → Nat → MeshState → MeshState
  | _, 0, ms => ms
  | j, n + 1, ms =>
    let t := (j : ℚ) / (divisions : ℚ)
    let normal := G.normalizeV (G.lerp normal1 normal2 t)
    let offset := j * (resolution + 1)
    let ms := updateVert mesh (index1 + offset)
      (fun v => { v with normal := normal }) ms
    collarNormalsJLoop G mesh resolution index1 normal1 normal2 divisions
      (j + 1) n ms

/-- Outer loop of `Mesh::setBranchCollarNormals` (mesh.cpp:428-442). -/
def collarNormalsLoop (G : Geom) (mesh resolution divisions : Nat) :
    Nat → Nat → Nat → MeshState → MeshState
  | _, _, 0, ms => ms
  | index1, index2, n + 1, ms =>
    let normal1 := ((vertsAt ms mesh).getD index1 default).normal
    let normal2 := ((vertsAt ms mesh).getD index2 default).normal
    let ms := collarNormalsJLoop G mesh resolution index1 normal1 normal2
      divisions 1 divisions ms
    collarNormalsLoop G mesh resolution divisions (index1 + 1) (index2 + 1)
      n ms

/-- Translation of `Mesh::setBranchCollarNormals` (mesh.cpp:425):
interpolate interior collar normals between ring A and the first ring
after the collar. -/
def setBranchCollarNormals (G : Geom) (index1 index2 mesh resolution
    divisions : Nat) (ms : MeshState) : MeshState :=
  collarNormalsLoop G mesh resolution divisions index1 index2
    (resolution + 1) ms

/-- Inner loop of `Mesh::setBranchCollarUVs` (mesh.cpp:459-466), walking
backward one ring stride at a time.  The source decrements a `size_t`
index; under the caller's layout it never underflows, and the embedding
uses truncated subtraction. -/
def collarUVsJLoop (G : Geom) (mesh size : Nat) (aspect radius : ℚ) :
    Nat → V2 → Nat → MeshState → MeshState
  | _, _, 0, ms => ms
  | index, uv, n + 1, ms =>
    let p1 := ((vertsAt ms mesh).getD index default).position
    let index2 := index - size
    let p2 := ((vertsAt ms mesh).getD index2 default).position
    let len := G.mag (G.vsub p2 p1)
    let uv : V2 := ⟨uv.x, uv.y - (len * aspect) / (radius * 2 * piQ)⟩
    let ms := updateVert mesh index2 (fun v => { v with uv := uv }) ms
    collarUVsJLoop G mesh size aspect radius index2 uv n ms

/-- Outer loop of `Mesh::setBranchCollarUVs` (mesh.cpp:455-467). -/
def collarUVsLoop (G : Geom) (mesh size : Nat) (aspect radius : ℚ)
    (lastIndex divisions : Nat) : Nat → Nat → MeshState → MeshState
  | _, 0, ms => ms
  | i, n + 1, ms =>
    let uv := ((vertsAt ms mesh).getD (lastIndex + i) default).uv
    let ms := collarUVsJLoop G mesh size aspect radius (lastIndex + i) uv
      (divisions + 1) ms
    collarUVsLoop G mesh size aspect radius lastIndex divisions (i + 1) n ms

/-- Translation of `Mesh::setBranchCollarUVs` (mesh.cpp:448): propagate
uv coordinates backward from the ring after the collar down to ring A. -/
def setBranchCollarUVs (G : Geom) (plant : Plant) (lastIndex : Nat)
    (stem : StemData) (mesh resolution divisions : Nat) (ms : MeshState) :
    MeshState :=
  let size := resolution + 1
  let radius := plant.getRadius stem 1
  let aspect := getAspect plant stem
  collarUVsLoop G mesh size aspect radius lastIndex divisions 0
    (resolution + 1) ms

/-- Search helper for `Mesh::findStem` (mesh.cpp:836): first buffer
whose stem-segment map contains the key. -/
def findStemAux (key : Nat) : List MBuf → Segment
  | [] => default
  | b :: bs =>
    match b.stemSegs.find? (fun s => s.stem.key = key) with
    | some seg => seg
    | none => findStemAux key bs

/-- Translation of `Mesh::findStem` (mesh.cpp:836): scan the per-buffer
segment maps, returning a zeroed segment when the stem is unknown. -/
def findStem (ms : MeshState) (key : Nat) : Segment :=
  findStemAux key ms.bufs

/-- Translation of `Mesh::connectCollar` (mesh.cpp:331): project ring A
onto the parent surface, fill the reserved collar block, stitch, and
post-process normals and uvs; on a failed projection truncate the
child's buffer back to the segment's start and report marker `0`. -/
def connectCollar (G : Geom) (plant : Plant) (child parent : Segment)
    (vertexStart : Nat) (ms : MeshState) : MeshState × Nat :=
  let mesh1 := selectBuffer child.stem.materialOuter
  let sectionDivisions := child.stem.sectionDivisions
  let collarDivisions := child.stem.collarDivisions
  let pathDivisions := child.stem.path.divisions
  let collarSize := getBranchCollarSize child.stem
  match connectCollarLoop G child parent vertexStart 0
      (sectionDivisions + 1) ms with
  | (ms, false) =>
    let ms := resizeVerts mesh1 child.vertexStart ms
    let ms := resizeInds mesh1 child.indexStart ms
    (ms, 0)
  | (ms, true) =>
    let ms := collarTriRingLoop mesh1 sectionDivisions child.vertexStart
      (child.vertexStart + sectionDivisions + 1) (collarDivisions + 1) ms
    let index1 := child.vertexStart
    let index2 := vertexStart + collarSize
    let ms := setBranchCollarNormals G index1 index2 mesh1 sectionDivisions
      collarDivisions ms
    let ms := setBranchCollarUVs G plant index2 child.stem mesh1
      sectionDivisions collarDivisions ms
    (ms, pathDivisions + 2)

/-- Translation of `Mesh::createBranchCollar` (mesh.cpp:231): emit ring
A, reserve the collar block, emit ring B past the collar region, then
run the fusion; returns the state and the section marker the caller
assigns (`0` when no collar is attempted or fusion failed). -/
def createBranchCollar (G : Geom) (plant : Plant)
    (parentStem : Option StemData) (ms : MeshState) (st : State) :
    MeshState × State × Nat :=
  let stem := st.segment.stem
  let swelling := stem.swelling
  if parentStem.isNone ∨ swelling.x < 1 ∨ swelling.y < 1 then (ms, st, 0)
  else
    let st := { st with sectionIdx := 0 }
    let st := { st with prevIndex := (vertsAt ms st.mesh).length }
    let pr := rotateSection G st
    let pr2 := addSection G plant ms pr.2 pr.1 ms.crossSection
    let ms := pr2.1
    let st := pr2.2
    let collarStart := (vertsAt ms st.mesh).length
    let ms := reserveBranchCollarSpace stem st.mesh ms
    let st := { st with prevIndex := (vertsAt ms st.mesh).length }
    let st := { st with texOffset := 0 }
    let st := { st with sectionIdx := stem.path.divisions + 1 }
    let st := { st with prevIndex := (vertsAt ms st.mesh).length }
    let pr3 := rotateSection G st
    let pr4 := addSection G plant ms pr3.2 pr3.1 ms.crossSection
    let ms := pr4.1
    let st := pr4.2
    let parentSegment := findStem ms (parentStem.getD default).key
    let pr5 := connectCollar G plant st.segment parentSegment collarStart ms
    (pr5.1, st, pr5.2)

/-- Vertex-copy loop of `Mesh::capStem` (mesh.cpp:479-484). -/
def capStemCopyLoop (G : Geom) (stemMesh mesh : Nat) (rotation : ℚ) :
    Nat → ℚ → Nat → MeshState → MeshState
  | _, _, 0, ms => ms
  | index, angle, n + 1, ms =>
    let vertex := (vertsAt ms stemMesh).getD index default
    let vertex := { vertex with
      uv := ⟨G.cosQ angle * (1/2) + 1/2, G.sinQ angle * (1/2) + 1/2⟩ }
    let ms := pushVert mesh vertex ms
    capStemCopyLoop G stemMesh mesh rotation (index + 1) (angle + rotation)
      n ms

/-- Fan loop of `Mesh::capStem` (mesh.cpp:486-495). -/
def capStemFanLoop (mesh sectionStart divisions : Nat) :
    Nat → Nat → MeshState → MeshState
  | _, 0, ms => ms
  | index, n + 1, ms =>
    let ms := addTriangle ms mesh (sectionStart + index)
      (sectionStart + divisions - index - 1) (sectionStart + index + 1)
    let ms := addTriangle ms mesh (sectionStart + index + 1)
      (sectionStart + divisions - index - 1)
      (sectionStart + divisions - index - 2)
    capStemFanLoop mesh sectionStart divisions (index + 1) n ms

/-- Translation of `Mesh::capStem` (mesh.cpp:470): copy the final ring
into the inner-material buffer with radial cap uvs, fan-triangulate it,
and add one extra triangle when the division count is odd. -/
def capStem (G : Geom) (stem : StemData) (stemMesh sectionArg : Nat)
    (ms : MeshState) : MeshState :=
  let mesh := selectBuffer stem.materialInner
  let divisions := stem.sectionDivisions
  let rotation := 2 * piQ / (divisions : ℚ)
  let sectionStart := (vertsAt ms mesh).length
  let ms := capStemCopyLoop G stemMesh mesh rotation sectionArg 0
    (divisions + 1) ms
  let ms := capStemFanLoop mesh sectionStart divisions 0
    (divisions / 2 - 1) ms
  if divisions % 2 = 1 then
    let lastSection := sectionStart + (divisions / 2 - 1)
    addTriangle ms mesh lastSection (lastSection + 2) (lastSection + 1)
  else ms

/-- Translation of `Leaf::getDefaultOrientation` (leaf.cpp:74), written
over the abstract vector/quaternion primitives. -/
def leafDefaultOrientation (G : Geom) (stemDirection : V3) : Quat :=
  let normal : V3 := ⟨F.fin 0, F.fin 1, F.fin 0⟩
  let d : V3 := ⟨F.fin 0, F.fin 0, F.fin 1⟩
  let leafDirection := G.normalizeV (G.cross stemDirection normal)
  let q := G.rotateIntoVecQ d leafDirection
  let up : V3 := ⟨F.fin 0, F.fin (-1), F.fin 0⟩
  let d2 := G.cross up stemDirection
  let d3 := G.cross d2 stemDirection
  let d4 := G.normalizeV d3
  let k := G.rotateIntoVecQ normal d4
  G.qmul k q

/-- Translation of `Mesh::transformLeaf` (mesh.cpp:555): resolve the
attachment point and tangent (snapping to the path's final point when
the position is negative or beyond the path length), fetch the template
geometry and transform it.  `Geometry::transform` lies outside the mesh
sources; it is modelled as an abstract per-vertex transform, which
preserves the vertex count and the indices, as the spec describes. -/
def transformLeaf (G : Geom) (plant : Plant) (leaf : Leaf)
    (stem : StemData) : Geometry :=
  let path := stem.path
  let pr :=
    if 0 ≤ leaf.position ∧ leaf.position < path.length then
      (G.pathIntermediateDir path leaf.position,
       G.vadd stem.location (G.pathIntermediate path leaf.position))
    else
      (G.pathDir path (path.size - 1),
       G.vadd stem.location (path.points.getLastD default))
  let direction := pr.1
  let location := pr.2
  let geom := plant.getLeafMeshD leaf.mesh G
  let rotation := G.qmul (leafDefaultOrientation G direction) leaf.rotation
  { geom with
    points := geom.points.map (G.leafTransform rotation leaf.scale location) }

/-- Translation of `Mesh::addLeaf` (mesh.cpp:511): compute the leaf's
skinning data (querying the joint of its attachment position when the
stem has joints), append the transformed template geometry with
re-based indices, and record the leaf segment. -/
def addLeaf (G : Geom) (plant : Plant) (stem : StemData)
    (leafIndex : Nat) (st : State) (ms : MeshState) : MeshState :=
  let leaf := stem.leaves.getD leafIndex default
  let mesh := selectBuffer leaf.material
  let vertexStart := (vertsAt ms mesh).length
  let indexStart := (indsAt ms mesh).length
  let pr :=
    if stem.hasJoints then
      let position := leaf.position
      let pair := getJoint position stem
      let index := pair.1
      let pathIndex := pair.2.pathIndex
      let jointPosition := stem.path.getDistanceTo pathIndex
      let offset := position - jointPosition
      setJointInfo stem offset index
    else
      ((⟨1, 0⟩ : V2), (⟨(st.jointID : ℚ), (st.jointID : ℚ)⟩ : V2))
  let weights := pr.1
  let indices := pr.2
  let geom := transformLeaf G plant leaf stem
  let vsize := (vertsAt ms mesh).length
  let ms := pushVerts mesh
    (geom.points.map (fun v =>
      { v with indices := indices, weights := weights })) ms
  let ms := pushInds mesh (geom.indices.map (fun i => i + vsize)) ms
  let seg : Segment :=
    { stem := stem
      leafIndex := leafIndex
      vertexStart := vertexStart
      vertexCount := (vertsAt ms mesh).length - vertexStart
      indexStart := indexStart
      indexCount := (indsAt ms mesh).length - indexStart }
  recordLeafSeg mesh seg ms

/-- Loop of `Mesh::addLeaves` (mesh.cpp:503). -/
def addLeavesLoop (G : Geom) (plant : Plant) (stem : StemData)
    (st : State) : Nat → Nat → MeshState → MeshState
  | _, 0, ms => ms
  | index, n + 1, ms =>
    addLeavesLoop G plant stem st (index + 1) n
      (addLeaf G plant stem index st ms)

/-- Translation of `Mesh::addLeaves` (mesh.cpp:503): one `addLeaf` per
leaf of the stem. -/
def addLeaves (G : Geom) (plant : Plant) (stem : StemData) (st : State)
    (ms : MeshState) : MeshState :=
  addLeavesLoop G plant stem st 0 stem.leaves.length ms

/-- Main ring loop of `Mesh::addSections` (mesh.cpp:94-104); the fuel is
`sections - sectionIdx`, exactly the number of remaining iterations. -/
def sectionLoop (G : Geom) (plant : Plant) (sections : Nat) :
    Nat → MeshState × State → MeshState × State
  | 0, pr => pr
  | n + 1, pr =>
    let ms := pr.1
    let st := pr.2
    let pr1 := rotateSection G st
    let rotation := pr1.1
    let st := pr1.2
    let st := { st with prevIndex := (vertsAt ms st.mesh).length }
    let pr2 := addSection G plant ms st rotation ms.crossSection
    let ms := pr2.1
    let st := pr2.2
    let ms :=
      if st.sectionIdx + 1 < sections then
        addTriangleRing st.prevIndex (vertsAt ms st.mesh).length
          st.segment.stem.sectionDivisions st.mesh ms
      else ms
    let st := { st with sectionIdx := st.sectionIdx + 1 }
    sectionLoop G plant sections n (ms, st)

/-- Translation of `Mesh::addSections` (mesh.cpp:75) up to (but not
including) the end cap: initial rotation, template cache refresh,
branch collar, the stitch ring after a successful collar, and the main
ring loop. -/
def addSectionsMain (G : Geom) (plant : Plant)
    (parentStem : Option StemData) (ms : MeshState) (st : State) :
    MeshState × State :=
  let stem := st.segment.stem
  let st := setInitialRotation G parentStem st
  let ms :=
    if stem.sectionDivisions ≠ ms.crossSection.getResolution then
      { ms with crossSection := CrossSection.generate G stem.sectionDivisions }
    else ms
  let st := { st with texOffset := 0 }
  let st := { st with prevIndex := (vertsAt ms st.mesh).length }
  let pr := createBranchCollar G plant parentStem ms st
  let ms := pr.1
  let st : State := { pr.2.1 with sectionIdx := pr.2.2 }
  let sections := stem.path.size
  let ms :=
    if 0 < st.sectionIdx ∧ st.sectionIdx < sections then
      addTriangleRing st.prevIndex (vertsAt ms st.mesh).length
        stem.sectionDivisions st.mesh ms
    else ms
  sectionLoop G plant sections (sections - st.sectionIdx) (ms, st)

/-- Translation of `Mesh::addSections` (mesh.cpp:75): the main pass plus
the end cap when the stem has a positive minimum radius. -/
def addSections (G : Geom) (plant : Plant) (parentStem : Option StemData)
    (ms : MeshState) (st : State) : MeshState × State :=
  let stem := st.segment.stem
  let pr := addSectionsMain G plant parentStem ms st
  let ms := pr.1
  let st := pr.2
  let ms :=
    if stem.minRadius > 0 then capStem G stem st.mesh st.prevIndex ms
    else ms
  (ms, st)

mutual

/-- Translation of `Mesh::addStem` (mesh.cpp:48): open the stem's
segment in its material buffer, run the section pass, record the
segment, attach leaves, then recurse into the children with a valid
location. -/
def addStemT (G : Geom) (plant : Plant) (parentStem : Option StemData)
    (parentState : State) (stem : StemT) (ms : MeshState) :
    MeshState × Segment :=
  match stem with
  | StemT.mk d children =>
    let mesh := selectBuffer d.materialOuter
    let st : State := { (default : State) with
      mesh := mesh
      segment := { (default : Segment) with
        stem := d
        vertexStart := (vertsAt ms mesh).length
        indexStart := (indsAt ms mesh).length } }
    let st := setInitialJointState parentStem parentState st
    let pr := addSections G plant parentStem ms st
    let ms := pr.1
    let st := pr.2
    let seg := { st.segment with
      vertexCount := (vertsAt ms mesh).length - st.segment.vertexStart
      indexCount := (indsAt ms mesh).length - st.segment.indexStart }
    let ms := recordStemSeg mesh seg ms
    let st := { st with segment := seg }
    let ms := addLeaves G plant d st ms
    let ms := addStemChildren G plant d st children ms
    (ms, seg)

/-- Child loop of `Mesh::addStem` (mesh.cpp:65-70): children whose
location fails `hasValidLocation` are skipped together with their
subtrees. -/
def addStemChildren (G : Geom) (plant : Plant) (d : StemData)
    (st : State) (children : List StemT) (ms : MeshState) : MeshState :=
  match children with
  | [] => ms
  | c :: rest =>
    let ms :=
      if hasValidLocation c.data then
        (addStemT G plant (some d) st c ms).1
      else ms
    addStemChildren G plant d st rest ms

end

/-- Shift applied to one recorded segment by `Mesh::updateSegments`. -/
def shiftSegment (vsize isize : Nat) (s : Segment) : Segment :=
  { s with vertexStart := s.vertexStart + vsize,
           indexStart := s.indexStart + isize }

/-- Loop of `Mesh::updateSegments` (mesh.cpp:755-770) over buffers
`1..`, carrying the running vertex and index totals of the buffers
already passed. -/
def updateSegmentsAux : Nat → Nat → List MBuf → List MBuf
  | _, _, [] => []
  | vsize, isize, b :: bs =>
    let b2 := { b with
      indices := b.indices.map (fun i => i + vsize)
      stemSegs := b.stemSegs.map (shiftSegment vsize isize)
      leafSegs := b.leafSegs.map (shiftSegment vsize isize) }
    b2 :: updateSegmentsAux (vsize + b.vertices.length)
      (isize + b.indices.length) bs

/-- Translation of `Mesh::updateSegments` (mesh.cpp:750): offset every
index and every recorded segment of buffers `1..` by the total vertex
and index counts of the lower-numbered buffers. -/
def updateSegments (ms : MeshState) : MeshState :=
  match ms.bufs with
  | [] => ms
  | b0 :: rest =>
    { ms with bufs :=
        b0 :: updateSegmentsAux b0.vertices.length b0.indices.length rest }

/-- Translation of `Mesh::generate` (mesh.cpp:32): initialize the
buffers, walk the tree from the root (whose location is not checked),
then run the single finalize pass. -/
def generate (G : Geom) (plant : Plant) : MeshState :=
  let ms := initBuffer plant emptyMesh
  match plant.root with
  | some root =>
    let pr := addStemT G plant none default root ms
    updateSegments pr.1
  | none => ms

/-- Translation of `Mesh::getVertices` (mesh.cpp:800): concatenation of
the per-material vertex buffers. -/
def getVertices (ms : MeshState) : List DVertex :=
  (ms.bufs.map MBuf.vertices).flatten

/-- Translation of `Mesh::getIndices` (mesh.cpp:808): concatenation of
the per-material index buffers. -/
def getIndices (ms : MeshState) : List Nat :=
  (ms.bufs.map MBuf.indices).flatten

/-- Skinning invariant under scrutiny: weights sum to one and lie in
the unit interval, and the two joint indices differ unless the second
weight is zero. -/
def skinOK (w i : V2) : Prop :=
  w.x + w.y = 1 ∧ 0 ≤ w.x ∧ w.x ≤ 1 ∧ 0 ≤ w.y ∧ w.y ≤ 1 ∧
    (w.y = 0 ∨ i.x ≠ i.y)

/-- Neighboring joints carry distinct ids (an input precondition of the
joint list; ids are allocated by the animation tooling outside the mesh
sources). -/
def adjacentDistinct (joints : List Joint) : Prop :=
  ∀ k, k + 1 < joints.length →
    (joints.getD k default).id ≠ (joints.getD (k + 1) default).id

/-- The region length `setJointInfo` divides by: distance from the
current joint to the next one (or to the stem end for the last
joint). -/
def jointRegionDistance (stem : StemData) (jointIndex : Nat) : ℚ :=
  let joints := stem.joints
  let path := stem.path
  let pathIndex := (joints.getD jointIndex default).pathIndex
  if jointIndex + 1 ≥ joints.length then
    path.getDistance2 pathIndex (path.size - 1)
  else
    path.getDistance2 pathIndex
      ((joints.getD (jointIndex + 1) default).pathIndex)

/-- Two segments' vertex ranges and index ranges are both disjoint. -/
def segDisjoint (a b : Segment) : Prop :=
  (a.vertexStart + a.vertexCount ≤ b.vertexStart ∨
    b.vertexStart + b.vertexCount ≤ a.vertexStart) ∧
  (a.indexStart + a.indexCount ≤ b.indexStart ∨
    b.indexStart + b.indexCount ≤ a.indexStart)

/-- A segment's ranges fit inside its buffer. -/
def segWithin (b : MBuf) (s : Segment) : Prop :=
  s.vertexStart + s.vertexCount ≤ b.vertices.length ∧
  s.indexStart + s.indexCount ≤ b.indices.length

/-- Buffer invariant: every recorded segment (stem or leaf) lies inside
the buffer and all recorded segments are pairwise disjoint. -/
def bufInv (b : MBuf) : Prop :=
  (∀ s ∈ b.stemSegs ++ b.leafSegs, segWithin b s) ∧
  (b.stemSegs ++ b.leafSegs).Pairwise segDisjoint

/-- The buffer invariant over every material buffer. -/
def meshInv (ms : MeshState) : Prop := ∀ m, bufInv (ms.bufs.getD m default)

/-- Number of triangles `capStem` emits: two per fan step plus the
odd-parity extra. -/
def capTriangleCount (divisions : Nat) : Nat :=
  2 * (divisions / 2 - 1) + (if divisions % 2 = 1 then 1 else 0)

/-- The cap triangle count asserted by the spec sentence under test
(`divisions - 1` fan triangles plus the odd extra, zero below two
divisions); kept for comparison against the code's count. -/
def capClaimCount (divisions : Nat) : Nat :=
  if divisions < 2 then 0
  else (divisions - 1) + (if divisions % 2 = 1 then 1 else 0)

/-- Total vertex count of the buffers before buffer `k`. -/
def vOffsetBefore (ms : MeshState) (k : Nat) : Nat :=
  ((ms.bufs.take k).map (fun b => b.vertices.length)).sum

/-- Total index count of the buffers before buffer `k`. -/
def iOffsetBefore (ms : MeshState) (k : Nat) : Nat :=
  ((ms.bufs.take k).map (fun b => b.indices.length)).sum

/-- The operation changed no recorded segment list. -/
def SegsUnchanged (ms ms' : MeshState) : Prop :=
  ∀ m, stemSegsAt ms' m = stemSegsAt ms m ∧ leafSegsAt ms' m = leafSegsAt ms m

/-- The operation shrank no buffer. -/
def SizesGE (ms ms' : MeshState) : Prop :=
  ∀ m, (vertsAt ms m).length ≤ (vertsAt ms' m).length ∧
    (indsAt ms m).length ≤ (indsAt ms' m).length

/-- Effect summary of the section pass between two segment recordings:
the buffer count is unchanged, no segment list is touched, and no
buffer shrinks below its length at the reference state (the collar
failure path truncates exactly back to the reference lengths). -/
def InvExt (ms0 ms : MeshState) : Prop :=
  ms.bufs.length = ms0.bufs.length ∧ SegsUnchanged ms0 ms ∧ SizesGE ms0 ms

/-- Effect summary of the in-place vertex passes (collar fill, normal
and uv post-processing): only vertex entries are overwritten -- the
index arrays, segment lists, buffer count, template cache and every
vertex-array length are unchanged. -/
def OnlyVertexWrites (ms ms' : MeshState) : Prop :=
  ms'.bufs.length = ms.bufs.length ∧
  ms'.crossSection = ms.crossSection ∧
  (∀ m', indsAt ms' m' = indsAt ms m') ∧
  (∀ m', stemSegsAt ms' m' = stemSegsAt ms m') ∧
  (∀ m', leafSegsAt ms' m' = leafSegsAt ms m') ∧
  (∀ m', (vertsAt ms' m').length = (vertsAt ms m').length)

/-- Frame predicate for the collar pass: buffer `m` of `ms` still holds
at least `pv` vertices and `pi` indices, and every entry below those
marks agrees with the original state `ms0`. -/
def FrameOK (ms0 ms : MeshState) (m pv pi : Nat) : Prop :=
  pv ≤ (vertsAt ms m).length ∧ pi ≤ (indsAt ms m).length ∧
  (∀ k, k < pv → (vertsAt ms m)[k]? = (vertsAt ms0 m)[k]?) ∧
  (∀ k, k < pi → (indsAt ms m)[k]? = (indsAt ms0 m)[k]?)

/-- A mesh state with a single empty buffer. -/
def msOne : MeshState := ⟨[default], ⟨0, []⟩⟩

/-- A two-buffer state with geometry in both buffers, exercising the
finalize pass. -/
def msC4 : MeshState :=
  ⟨[{ vertices := [default], indices := [0], stemSegs := [], leafSegs := [] },
    { vertices := [default, default], indices := [0, 1],
      stemSegs := [{ (default : Segment) with
        vertexCount := 2, indexCount := 2 }],
      leafSegs := [] }], ⟨0, []⟩⟩

/-- Straight five-sample path with unit segments. -/
def pathJ : Path :=
  { points := List.replicate 5 default, segLength := [1, 1, 1, 1],
    radii := [1, 1, 1, 1, 1], divisions := 0, spline := default }

/-- Stem with three joints at samples 0, 2 and 4 of `pathJ`. -/
def stemJ : StemData :=
  { key := 3, materialOuter := 0, materialInner := 0, sectionDivisions := 1,
    collarDivisions := 0, swelling := ⟨0, 0⟩, distance := 0,
    location := default, minRadius := 0, path := pathJ,
    joints := [⟨10, 0⟩, ⟨11, 2⟩, ⟨12, 4⟩], leaves := [] }

/-- Walk state positioned at section 1 of `stemJ`, on its first
joint. -/
def stC2 : State :=
  { (default : State) with
    segment := { (default : Segment) with stem := stemJ }
    sectionIdx := 1
    jointIndex := 0
    jointID := 10
    jointOffset := 0 }

/-- Two-sample straight path. -/
def pathTwo : Path :=
  { points := [default, default], segLength := [1], radii := [1, 1],
    divisions := 0, spline := default }

/-- Stem with eight section divisions, for the cap parity check. -/
def stem8 : StemData :=
  { key := 4, materialOuter := 0, materialInner := 0, sectionDivisions := 8,
    collarDivisions := 0, swelling := ⟨0, 0⟩, distance := 0,
    location := default, minRadius := 1, path := pathTwo,
    joints := [], leaves := [] }

/-- Root stem of the invalid-location scenario. -/
def rootC7 : StemData :=
  { key := 1, materialOuter := 0, materialInner := 0, sectionDivisions := 1,
    collarDivisions := 0, swelling := ⟨0, 0⟩, distance := 0,
    location := default, minRadius := 0, path := pathTwo,
    joints := [], leaves := [] }

/-- Child stem whose location has a NaN y coordinate (x is finite). -/
def childC7 : StemData :=
  { rootC7 with key := 2, location := ⟨F.fin 0, F.nan, F.fin 0⟩ }

/-- Stem whose location has a NaN x coordinate (the one the skip
tests). -/
def childC7x : StemData :=
  { rootC7 with key := 9, location := ⟨F.nan, F.fin 0, F.fin 0⟩ }

/-- Plant with a valid root and the NaN-y child. -/
def plantC7 : Plant :=
  { root := some (StemT.mk rootC7 [StemT.mk childC7 []]),
    materials := [(0, ⟨1⟩)], leafMeshes := [] }

/-- Plant whose tables only hold the ids 0. -/
def plantC8 : Plant :=
  { root := none, materials := [(0, ⟨1⟩)],
    leafMeshes := [(0, ⟨[], []⟩)] }

/-- A path without samples. -/
def emptyPath : Path :=
  { points := [], segLength := [], radii := [], divisions := 0,
    spline := default }

/-- Stem with a zero-sample path and a positive minimum radius (the cap
is emitted). -/
def stemC9 : StemData :=
  { key := 1, materialOuter := 0, materialInner := 0, sectionDivisions := 4,
    collarDivisions := 0, swelling := ⟨0, 0⟩, distance := 0,
    location := default, minRadius := 1, path := emptyPath,
    joints := [], leaves := [] }

/-- Plant holding only the zero-sample stem. -/
def plantC9 : Plant :=
  { root := some (StemT.mk stemC9 []), materials := [(0, ⟨1⟩)],
    leafMeshes := [] }

/-- The walk state `Mesh::addStem` builds for `stemC9` before calling
`addSections`. -/
def stateC9 : State :=
  setInitialJointState none default
    { (default : State) with
      mesh := selectBuffer stemC9.materialOuter
      segment := { (default : Segment) with
        stem := stemC9
        vertexStart := 0
        indexStart := 0 } }

/-- Parent stem of the collar-failure scenario. -/
def parentCol : StemData :=
  { key := 5, materialOuter := 0, materialInner := 0, sectionDivisions := 1,
    collarDivisions := 0, swelling := ⟨0, 0⟩, distance := 0,
    location := default, minRadius := 0, path := pathTwo,
    joints := [], leaves := [] }

/-- Child stem that attempts a collar (swelling 1.5 on both axes). -/
def childCol : StemData :=
  { key := 6, materialOuter := 0, materialInner := 0, sectionDivisions := 1,
    collarDivisions := 1, swelling := ⟨3/2, 3/2⟩, distance := 0,
    location := default, minRadius := 0, path := pathTwo,
    joints := [], leaves := [] }

/-- Mesh state with one buffer already holding the parent's three
vertices and one triangle. -/
def msCol2 : MeshState :=
  ⟨[{ vertices := [default, default, default], indices := [0, 1, 2],
      stemSegs := [], leafSegs := [] }], ⟨0, []⟩⟩

/-- Recorded parent segment spanning one vertex and one triangle of
`msCol2`. -/
def parentSegCol : Segment :=
  { stem := parentCol, leafIndex := 0, vertexStart := 0, vertexCount := 1,
    indexStart := 0, indexCount := 3 }

/-- Child segment placed after the parent's geometry in the same
buffer. -/
def childSegCol : Segment :=
  { stem := childCol, leafIndex := 0, vertexStart := 3, vertexCount := 0,
    indexStart := 3, indexCount := 0 }

/-- Plant of the collar-failure scenario. -/
def plantCol : Plant :=
  { root := none, materials := [(0, ⟨1⟩)], leafMeshes := [] }

/-- Walk state for `childCol` at the top of its section pass. -/
def stateCol : State :=
  { (default : State) with
    mesh := selectBuffer childCol.materialOuter
    segment := { (default : Segment) with
      stem := childCol
      vertexStart := 0
      indexStart := 0 } }

theorem length_bufs_modifyBuf (m : Nat) (f : MBuf → MBuf) (ms : MeshState) :
    (modifyBuf m f ms).bufs.length = ms.bufs.length := by
  simp [modifyBuf]

theorem getD_bufs_modifyBuf (m' m : Nat) (f : MBuf → MBuf) (ms : MeshState) :
    (modifyBuf m f ms).bufs.getD m' default =
      if m' = m ∧ m < ms.bufs.length then f (ms.bufs.getD m default)
      else ms.bufs.getD m' default := by
  unfold modifyBuf
  rcases Decidable.em (m' = m) with h1 | h1
  · subst h1
    rcases Nat.lt_or_ge m' ms.bufs.length with h2 | h2
    · simp [List.getD_eq_getElem?_getD, List.getElem?_set_eq_of_lt _ h2, h2]
    · simp [List.set_eq_of_length_le h2, Nat.not_lt.mpr h2]
  · simp [List.getD_eq_getElem?_getD,
      List.getElem?_set_ne (fun hh => h1 hh.symm), h1]

theorem length_listResize (l : List α) (n : Nat) (d : α) :
    (listResize l n d).length = n := by
  simp [listResize]
  omega

theorem getElem?_listResize_lt (l : List α) {n k : Nat} (d : α)
    (h1 : k < n) (h2 : k < l.length) : (listResize l n d)[k]? = l[k]? := by
  unfold listResize
  rw [List.getElem?_append_left (by simp [List.length_take]; omega)]
  simp [List.getElem?_take, h1]

theorem pushVert_eq_pushVerts (m : Nat) (v : DVertex) :
    pushVert m v = pushVerts m [v] := rfl

theorem vertsAt_pushVerts (m' m : Nat) (vs : List DVertex) (ms : MeshState) :
    vertsAt (pushVerts m vs ms) m' =
      if m' = m ∧ m < ms.bufs.length then vertsAt ms m ++ vs
      else vertsAt ms m' := by
  unfold vertsAt pushVerts
  rw [getD_bufs_modifyBuf]
  split <;> rfl

theorem indsAt_pushVerts (m' m : Nat) (vs : List DVertex) (ms : MeshState) :
    indsAt (pushVerts m vs ms) m' = indsAt ms m' := by
  unfold indsAt pushVerts
  rw [getD_bufs_modifyBuf]
  split
  · rename_i h; rw [h.1]
  · rfl

theorem stemSegsAt_pushVerts (m' m : Nat) (vs : List DVertex)
    (ms : MeshState) : stemSegsAt (pushVerts m vs ms) m' = stemSegsAt ms m' := by
  unfold stemSegsAt pushVerts
  rw [getD_bufs_modifyBuf]
  split
  · rename_i h; rw [h.1]
  · rfl

theorem leafSegsAt_pushVerts (m' m : Nat) (vs : List DVertex)
    (ms : MeshState) : leafSegsAt (pushVerts m vs ms) m' = leafSegsAt ms m' := by
  unfold leafSegsAt pushVerts
  rw [getD_bufs_modifyBuf]
  split
  · rename_i h; rw [h.1]
  · rfl

theorem vertsAt_pushInds (m' m : Nat) (is : List Nat) (ms : MeshState) :
    vertsAt (pushInds m is ms) m' = vertsAt ms m' := by
  unfold vertsAt pushInds
  rw [getD_bufs_modifyBuf]
  split
  · rename_i h; rw [h.1]
  · rfl

theorem indsAt_pushInds (m' m : Nat) (is : List Nat) (ms : MeshState) :
    indsAt (pushInds m is ms) m' =
      if m' = m ∧ m < ms.bufs.length then indsAt ms m ++ is
      else indsAt ms m' := by
  unfold indsAt pushInds
  rw [getD_bufs_modifyBuf]
  split <;> rfl

theorem stemSegsAt_pushInds (m' m : Nat) (is : List Nat) (ms : MeshState) :
    stemSegsAt (pushInds m is ms) m' = stemSegsAt ms m' := by
  unfold stemSegsAt pushInds
  rw [getD_bufs_modifyBuf]
  split
  · rename_i h; rw [h.1]
  · rfl

theorem leafSegsAt_pushInds (m' m : Nat) (is : List Nat) (ms : MeshState) :
    leafSegsAt (pushInds m is ms) m' = leafSegsAt ms m' := by
  unfold leafSegsAt pushInds
  rw [getD_bufs_modifyBuf]
  split
  · rename_i h; rw [h.1]
  · rfl

theorem vertsAt_setVert (m' m k : Nat) (v : DVertex) (ms : MeshState) :
    vertsAt (setVert m k v ms) m' =
      if m' = m ∧ m < ms.bufs.length then (vertsAt ms m).set k v
      else vertsAt ms m' := by
  unfold vertsAt setVert
  rw [getD_bufs_modifyBuf]
  split <;> rfl

theorem indsAt_setVert (m' m k : Nat) (v : DVertex) (ms : MeshState) :
    indsAt (setVert m k v ms) m' = indsAt ms m' := by
  unfold indsAt setVert
  rw [getD_bufs_modifyBuf]
  split
  · rename_i h; rw [h.1]
  · rfl

theorem stemSegsAt_setVert (m' m k : Nat) (v : DVertex) (ms : MeshState) :
    stemSegsAt (setVert m k v ms) m' = stemSegsAt ms m' := by
  unfold stemSegsAt setVert
  rw [getD_bufs_modifyBuf]
  split
  · rename_i h; rw [h.1]
  · rfl

theorem leafSegsAt_setVert (m' m k : Nat) (v : DVertex) (ms : MeshState) :
    leafSegsAt (setVert m k v ms) m' = leafSegsAt ms m' := by
  unfold leafSegsAt setVert
  rw [getD_bufs_modifyBuf]
  split
  · rename_i h; rw [h.1]
  · rfl

theorem length_vertsAt_setVert (m' m k : Nat) (v : DVertex) (ms : MeshState) :
    (vertsAt (setVert m k v ms) m').length = (vertsAt ms m').length := by
  rw [vertsAt_setVert]
  split
  · rename_i h; rw [h.1, List.length_set]
  · rfl

theorem vertsAt_resizeVerts (m' m n : Nat) (ms : MeshState) :
    vertsAt (resizeVerts m n ms) m' =
      if m' = m ∧ m < ms.bufs.length then listResize (vertsAt ms m) n default
      else vertsAt ms m' := by
  unfold vertsAt resizeVerts
  rw [getD_bufs_modifyBuf]
  split <;> rfl

theorem indsAt_resizeVerts (m' m n : Nat) (ms : MeshState) :
    indsAt (resizeVerts m n ms) m' = indsAt ms m' := by
  unfold indsAt resizeVerts
  rw [getD_bufs_modifyBuf]
  split
  · rename_i h; rw [h.1]
  · rfl

theorem stemSegsAt_resizeVerts (m' m n : Nat) (ms : MeshState) :
    stemSegsAt (resizeVerts m n ms) m' = stemSegsAt ms m' := by
  unfold stemSegsAt resizeVerts
  rw [getD_bufs_modifyBuf]
  split
  · rename_i h; rw [h.1]
  · rfl

theorem leafSegsAt_resizeVerts (m' m n : Nat) (ms : MeshState) :
    leafSegsAt (resizeVerts m n ms) m' = leafSegsAt ms m' := by
  unfold leafSegsAt resizeVerts
  rw [getD_bufs_modifyBuf]
  split
  · rename_i h; rw [h.1]
  · rfl

theorem vertsAt_resizeInds (m' m n : Nat) (ms : MeshState) :
    vertsAt (resizeInds m n ms) m' = vertsAt ms m' := by
  unfold vertsAt resizeInds
  rw [getD_bufs_modifyBuf]
  split
  · rename_i h; rw [h.1]
  · rfl

theorem indsAt_resizeInds (m' m n : Nat) (ms : MeshState) :
    indsAt (resizeInds m n ms) m' =
      if m' = m ∧ m < ms.bufs.length then listResize (indsAt ms m) n default
      else indsAt ms m' := by
  unfold indsAt resizeInds
  rw [getD_bufs_modifyBuf]
  split <;> rfl

theorem stemSegsAt_resizeInds (m' m n : Nat) (ms : MeshState) :
    stemSegsAt (resizeInds m n ms) m' = stemSegsAt ms m' := by
  unfold stemSegsAt resizeInds
  rw [getD_bufs_modifyBuf]
  split
  · rename_i h; rw [h.1]
  · rfl

theorem leafSegsAt_resizeInds (m' m n : Nat) (ms : MeshState) :
    leafSegsAt (resizeInds m n ms) m' = leafSegsAt ms m' := by
  unfold leafSegsAt resizeInds
  rw [getD_bufs_modifyBuf]
  split
  · rename_i h; rw [h.1]
  · rfl

theorem vertsAt_recordStemSeg (m' m : Nat) (s : Segment) (ms : MeshState) :
    vertsAt (recordStemSeg m s ms) m' = vertsAt ms m' := by
  unfold vertsAt recordStemSeg
  rw [getD_bufs_modifyBuf]
  split
  · rename_i h; rw [h.1]
  · rfl

theorem indsAt_recordStemSeg (m' m : Nat) (s : Segment) (ms : MeshState) :
    indsAt (recordStemSeg m s ms) m' = indsAt ms m' := by
  unfold indsAt recordStemSeg
  rw [getD_bufs_modifyBuf]
  split
  · rename_i h; rw [h.1]
  · rfl

theorem stemSegsAt_recordStemSeg (m' m : Nat) (s : Segment) (ms : MeshState) :
    stemSegsAt (recordStemSeg m s ms) m' =
      if m' = m ∧ m < ms.bufs.length then stemSegsAt ms m ++ [s]
      else stemSegsAt ms m' := by
  unfold stemSegsAt recordStemSeg
  rw [getD_bufs_modifyBuf]
  split <;> rfl

theorem leafSegsAt_recordStemSeg (m' m : Nat) (s : Segment) (ms : MeshState) :
    leafSegsAt (recordStemSeg m s ms) m' = leafSegsAt ms m' := by
  unfold leafSegsAt recordStemSeg
  rw [getD_bufs_modifyBuf]
  split
  · rename_i h; rw [h.1]
  · rfl

theorem vertsAt_recordLeafSeg (m' m : Nat) (s : Segment) (ms : MeshState) :
    vertsAt (recordLeafSeg m s ms) m' = vertsAt ms m' := by
  unfold vertsAt recordLeafSeg
  rw [getD_bufs_modifyBuf]
  split
  · rename_i h; rw [h.1]
  · rfl

theorem indsAt_recordLeafSeg (m' m : Nat) (s : Segment) (ms : MeshState) :
    indsAt (recordLeafSeg m s ms) m' = indsAt ms m' := by
  unfold indsAt recordLeafSeg
  rw [getD_bufs_modifyBuf]
  split
  · rename_i h; rw [h.1]
  · rfl

theorem stemSegsAt_recordLeafSeg (m' m : Nat) (s : Segment) (ms : MeshState) :
    stemSegsAt (recordLeafSeg m s ms) m' = stemSegsAt ms m' := by
  unfold stemSegsAt recordLeafSeg
  rw [getD_bufs_modifyBuf]
  split
  · rename_i h; rw [h.1]
  · rfl

theorem leafSegsAt_recordLeafSeg (m' m : Nat) (s : Segment) (ms : MeshState) :
    leafSegsAt (recordLeafSeg m s ms) m' =
      if m' = m ∧ m < ms.bufs.length then leafSegsAt ms m ++ [s]
      else leafSegsAt ms m' := by
  unfold leafSegsAt recordLeafSeg
  rw [getD_bufs_modifyBuf]
  split <;> rfl

theorem length_bufs_addTriangle (ms : MeshState) (mesh a b c : Nat) :
    (addTriangle ms mesh a b c).bufs.length = ms.bufs.length :=
  length_bufs_modifyBuf ..

theorem indsAt_addTriangle_self (ms : MeshState) (mesh a b c : Nat)
    (h : mesh < ms.bufs.length) :
    indsAt (addTriangle ms mesh a b c) mesh = indsAt ms mesh ++ [a, b, c] := by
  unfold addTriangle
  rw [indsAt_pushInds]
  simp [h]

theorem vertsAt_addTriangle (ms : MeshState) (mesh a b c m' : Nat) :
    vertsAt (addTriangle ms mesh a b c) m' = vertsAt ms m' :=
  vertsAt_pushInds ..

theorem length_bufs_capStemCopyLoop (G : Geom) (sm mesh : Nat) (rot : ℚ) :
    ∀ (n index : Nat) (angle : ℚ) (ms : MeshState),
      (capStemCopyLoop G sm mesh rot index angle n ms).bufs.length =
        ms.bufs.length := by
  intro n
  induction n with
  | zero => intro index angle ms; rfl
  | succ k ih =>
    intro index angle ms
    rw [capStemCopyLoop, ih]
    exact length_bufs_modifyBuf ..

theorem indsAt_capStemCopyLoop (G : Geom) (sm mesh : Nat) (rot : ℚ)
    (m' : Nat) :
    ∀ (n index : Nat) (angle : ℚ) (ms : MeshState),
      indsAt (capStemCopyLoop G sm mesh rot index angle n ms) m' =
        indsAt ms m' := by
  intro n
  induction n with
  | zero => intro index angle ms; rfl
  | succ k ih =>
    intro index angle ms
    rw [capStemCopyLoop, ih, pushVert_eq_pushVerts, indsAt_pushVerts]

theorem length_bufs_capStemFanLoop (mesh s d : Nat) :
    ∀ (n index : Nat) (ms : MeshState),
      (capStemFanLoop mesh s d index n ms).bufs.length = ms.bufs.length := by
  intro n
  induction n with
  | zero => intro index ms; rfl
  | succ k ih =>
    intro index ms
    rw [capStemFanLoop, ih, length_bufs_addTriangle, length_bufs_addTriangle]

theorem length_indsAt_capStemFanLoop (mesh s d : Nat) :
    ∀ (n index : Nat) (ms : MeshState), mesh < ms.bufs.length →
      (indsAt (capStemFanLoop mesh s d index n ms) mesh).length =
        (indsAt ms mesh).length + 6 * n := by
  intro n
  induction n with
  | zero => intro index ms _; rfl
  | succ k ih =>
    intro index ms h
    rw [capStemFanLoop, ih]
    · rw [indsAt_addTriangle_self]
      · rw [indsAt_addTriangle_self _ _ _ _ _ h]
        simp
        omega
      · rw [length_bufs_addTriangle]; exact h
    · rw [length_bufs_addTriangle, length_bufs_addTriangle]; exact h

/-- The number of index entries `capStem` appends to the inner-material
buffer is three times `capTriangleCount` of the division count. -/
theorem length_indsAt_capStem (G : Geom) (stem : StemData)
    (stemMesh sectionArg : Nat) (ms : MeshState)
    (h : selectBuffer stem.materialInner < ms.bufs.length) :
    (indsAt (capStem G stem stemMesh sectionArg ms)
        (selectBuffer stem.materialInner)).length =
      (indsAt ms (selectBuffer stem.materialInner)).length +
        3 * capTriangleCount stem.sectionDivisions := by
  simp only [capStem, capTriangleCount]
  have h1 := length_bufs_capStemCopyLoop G stemMesh
    (selectBuffer stem.materialInner) (2 * piQ / (stem.sectionDivisions : ℚ))
    (stem.sectionDivisions + 1) sectionArg 0 ms
  have h2 := length_indsAt_capStemFanLoop (selectBuffer stem.materialInner)
    (vertsAt ms (selectBuffer stem.materialInner)).length
    stem.sectionDivisions (stem.sectionDivisions / 2 - 1) 0
    (capStemCopyLoop G stemMesh (selectBuffer stem.materialInner)
      (2 * piQ / (stem.sectionDivisions : ℚ)) sectionArg 0
      (stem.sectionDivisions + 1) ms) (by rw [h1]; exact h)
  rw [indsAt_capStemCopyLoop] at h2
  split
  · rw [indsAt_addTriangle_self]
    · rw [List.length_append, h2]
      simp
      omega
    · rw [length_bufs_capStemFanLoop, h1]; exact h
  · rw [h2]
    omega

/-- The spec's cap parity sentence fails on the code: for eight
divisions `capStem` emits 6 triangles (18 index entries) while the
sentence demands `divisions - 1 = 7`. -/
theorem C6_counterexample :
    (indsAt (capStem trivialGeom stem8 0 0 msOne) 0).length = 3 * 6 ∧
    capClaimCount 8 = 7 ∧ (6 : Nat) ≠ 7 := by
  exact ⟨by decide, by decide, by decide⟩

/-- C6 (amended): `capStem` appends `2 * (divisions / 2 - 1)` fan
triangles plus one extra exactly when `divisions` is odd; for
`divisions ≥ 2` this totals `divisions - 2` triangles (for
`divisions = 1` it emits the single parity triangle, for `0` none). -/
theorem C6_cap_parity (G : Geom) (stem : StemData)
    (stemMesh sectionArg : Nat) (ms : MeshState)
    (h : selectBuffer stem.materialInner < ms.bufs.length) :
    (indsAt (capStem G stem stemMesh sectionArg ms)
        (selectBuffer stem.materialInner)).length =
      (indsAt ms (selectBuffer stem.materialInner)).length +
        3 * capTriangleCount stem.sectionDivisions ∧
    (2 ≤ stem.sectionDivisions →
      capTriangleCount stem.sectionDivisions = stem.sectionDivisions - 2) ∧
    capTriangleCount 1 = 1 ∧ capTriangleCount 0 = 0 := by
  refine ⟨length_indsAt_capStem G stem stemMesh sectionArg ms h, ?_, by decide, by decide⟩
  intro hd
  unfold capTriangleCount
  rcases Nat.even_or_odd stem.sectionDivisions with he | ho
  · rcases he with ⟨t, ht⟩
    have : stem.sectionDivisions % 2 = 0 := by omega
    simp [this]
    omega
  · rcases ho with ⟨t, ht⟩
    have : stem.sectionDivisions % 2 = 1 := by omega
    simp [this]
    omega

theorem C6_cap_parity_witness :
    selectBuffer stem8.materialInner < msOne.bufs.length ∧
    ((indsAt (capStem trivialGeom stem8 0 0 msOne)
        (selectBuffer stem8.materialInner)).length =
      (indsAt msOne (selectBuffer stem8.materialInner)).length +
        3 * capTriangleCount stem8.sectionDivisions ∧
    (2 ≤ stem8.sectionDivisions →
      capTriangleCount stem8.sectionDivisions = stem8.sectionDivisions - 2) ∧
    capTriangleCount 1 = 1 ∧ capTriangleCount 0 = 0) :=
  ⟨by decide, C6_cap_parity trivialGeom stem8 0 0 msOne (by decide)⟩

/-- C8 (counterexample): looking up an id absent from the plant tables
is an out-of-range error (`std::map::at` throws), not a fallback to a
default. -/
theorem C8_counterexample :
    Plant.getMaterialE plantC8 5 = Except.error "out_of_range" ∧
    Plant.getLeafMeshE plantC8 5 trivialGeom = Except.error "out_of_range" :=
  ⟨rfl, rfl⟩

/-- C8 (amended): only the id `0` falls back to a default (the
perpendicular-planes leaf geometry; material id `0` is never looked up
and the aspect defaults to `1`); a nonzero id absent from its table
raises `std::out_of_range` from `map::at` instead of using a default. -/
theorem C8_default_lookup (p : Plant) (G : Geom) (id : Nat)
    (stem : StemData) (hid : id ≠ 0)
    (hlm : p.leafMeshes.find? (fun kv => kv.1 = id) = none)
    (hmt : p.materials.find? (fun kv => kv.1 = id) = none)
    (hstem : stem.materialOuter = 0) :
    Plant.getLeafMeshE p 0 G = Except.ok G.perpPlanes ∧
    getAspect p stem = 1 ∧
    Plant.getLeafMeshE p id G = Except.error "out_of_range" ∧
    Plant.getMaterialE p id = Except.error "out_of_range" := by
  refine ⟨by simp [Plant.getLeafMeshE], by simp [getAspect, hstem], ?_, ?_⟩
  · simp [Plant.getLeafMeshE, hid, hlm]
  · simp [Plant.getMaterialE, hmt]

theorem C8_default_lookup_witness :
    (5 : Nat) ≠ 0 ∧
    (Plant.getLeafMeshE plantC8 0 trivialGeom =
        Except.ok trivialGeom.perpPlanes ∧
      getAspect plantC8 (default : StemData) = 1 ∧
      Plant.getLeafMeshE plantC8 5 trivialGeom =
        Except.error "out_of_range" ∧
      Plant.getMaterialE plantC8 5 = Except.error "out_of_range") :=
  ⟨by decide,
    C8_default_lookup plantC8 trivialGeom 5 default (by decide) (by decide)
      (by decide) (by decide)⟩

/-- C9: evaluation of the code at the failing input.  A stem with a
zero-sample path and a positive minimum radius reaches `capStem` with a
start index equal to the buffer's length, so the very first of its
`divisions + 1` vertex reads is already out of bounds. -/
theorem C9_zero_sample_cap_oob :
    stemC9.path.size = 0 ∧ stemC9.minRadius > 0 ∧
    (addSectionsMain trivialGeom plantC9 none (initBuffer plantC9 emptyMesh)
        stateC9).2.prevIndex =
      (vertsAt
        (addSectionsMain trivialGeom plantC9 none
          (initBuffer plantC9 emptyMesh) stateC9).1
        (addSectionsMain trivialGeom plantC9 none
          (initBuffer plantC9 emptyMesh) stateC9).2.mesh).length ∧
    (vertsAt
        (addSectionsMain trivialGeom plantC9 none
          (initBuffer plantC9 emptyMesh) stateC9).1
        (addSectionsMain trivialGeom plantC9 none
          (initBuffer plantC9 emptyMesh) stateC9).2.mesh)[
      (addSectionsMain trivialGeom plantC9 none
        (initBuffer plantC9 emptyMesh) stateC9).2.prevIndex]? = none := by
  decide

/-- C7 (counterexample): a stem whose location has a NaN y coordinate
(a non-finite coordinate, hence "invalid" per the claim) is not
skipped: the pass records its segment and emits its four vertices,
because `hasValidLocation` tests only the x coordinate. -/
theorem C7_counterexample :
    childC7.location.y = F.nan ∧
    (stemSegsAt (generate trivialGeom plantC7) 0).map
      (fun s => (s.stem.key, s.vertexCount)) = [(1, 4), (2, 4)] := by
  decide

/-- C7 (amended): a child stem is skipped, together with its entire
subtree, exactly when the x coordinate of its location is NaN (the root
is never tested; NaN in y or z alone, or infinities, do not trigger the
skip): removing such a child from the child list leaves the pass's
result unchanged. -/
theorem C7_skip (G : Geom) (plant : Plant) (d : StemData) (st : State)
    (l1 l2 : List StemT) (bad : StemT) (ms : MeshState)
    (h : hasValidLocation bad.data = false) :
    addStemChildren G plant d st (l1 ++ bad :: l2) ms =
      addStemChildren G plant d st (l1 ++ l2) ms ∧
    (∀ s : StemData, hasValidLocation s = false ↔ s.location.x = F.nan) := by
  constructor
  · induction l1 generalizing ms with
    | nil => simp [addStemChildren, h]
    | cons c rest ih => simp only [List.cons_append, addStemChildren]; exact ih _
  · intro s
    unfold hasValidLocation
    cases hx : s.location.x <;> simp [F.isnan, hx]

theorem C7_skip_witness :
    hasValidLocation (StemT.mk childC7x []).data = false ∧
    (addStemChildren trivialGeom plantC7 rootC7 default
        ([] ++ StemT.mk childC7x [] :: []) msOne =
      addStemChildren trivialGeom plantC7 rootC7 default ([] ++ []) msOne ∧
    (∀ s : StemData, hasValidLocation s = false ↔ s.location.x = F.nan)) :=
  ⟨by decide,
    C7_skip trivialGeom plantC7 rootC7 default [] [] (StemT.mk childC7x [])
      msOne (by decide)⟩

/-- Weight and index invariant of `setJointInfo` under its caller's
preconditions: the offset is the arc distance into the current joint's
region, so it is nonnegative and bounded by the region length. -/
theorem skinOK_setJointInfo (stem : StemData) (off : ℚ) (k : Nat)
    (hk : k < stem.joints.length) (hadj : adjacentDistinct stem.joints)
    (h0 : 0 ≤ off) (hd : off ≤ jointRegionDistance stem k) :
    skinOK (setJointInfo stem off k).1 (setJointInfo stem off k).2 := by
  have hdnn : 0 ≤ jointRegionDistance stem k := le_trans h0 hd
  have hr0 : 0 ≤ off / jointRegionDistance stem k := div_nonneg h0 hdnn
  have hr1 : off / jointRegionDistance stem k ≤ 1 := by
    rcases eq_or_lt_of_le hdnn with he | hpos
    · rw [← he, div_zero]
      norm_num
    · exact (div_le_one hpos).mpr hd
  have hdist : (if (decide (k + 1 ≥ stem.joints.length)) = true then
      stem.path.getDistance2 ((stem.joints.getD k default).pathIndex)
        (stem.path.size - 1)
    else stem.path.getDistance2 ((stem.joints.getD k default).pathIndex)
        ((stem.joints.getD (k + 1) default).pathIndex)) =
      jointRegionDistance stem k := by
    simp only [jointRegionDistance, decide_eq_true_eq]
  unfold setJointInfo
  simp only [hdist]
  split
  · exact ⟨by norm_num, by norm_num, by norm_num, by norm_num, by norm_num,
      Or.inl rfl⟩
  · rename_i hcond
    split
    · rename_i hgt
      have hlast : ¬ (k + 1 ≥ stem.joints.length) := by
        intro hle
        apply hcond
        simp only [Bool.or_eq_true, Bool.and_eq_true, decide_eq_true_eq]
        exact Or.inr ⟨hgt, hle⟩
      dsimp only
      refine ⟨by ring, by linarith, by linarith, by linarith, by linarith,
        Or.inr ?_⟩
      have hne := hadj k (by omega)
      exact fun hh => hne (Nat.cast_inj.mp hh)
    · rename_i hgt
      have hnotmid : off / jointRegionDistance stem k ≠ 1/2 := by
        intro hh
        apply hcond
        simp only [Bool.or_eq_true, Bool.and_eq_true, decide_eq_true_eq]
        exact Or.inl (Or.inl hh)
      have hlt : off / jointRegionDistance stem k < 1/2 :=
        lt_of_le_of_ne (not_lt.mp hgt) hnotmid
      have hk0 : k ≠ 0 := by
        intro hh
        apply hcond
        simp only [Bool.or_eq_true, Bool.and_eq_true, decide_eq_true_eq]
        exact Or.inl (Or.inr ⟨hlt, hh⟩)
      dsimp only
      refine ⟨by ring, by linarith, by linarith, by linarith, by linarith,
        Or.inr ?_⟩
      have hne := hadj (k - 1) (by omega)
      have hsub : k - 1 + 1 = k := by omega
      rw [hsub] at hne
      exact fun hh => hne (Nat.cast_inj.mp hh).symm

theorem incrementJoint_sectionIdx (st : State) (joints : List Joint) :
    (incrementJoint st joints).sectionIdx = st.sectionIdx := by
  unfold incrementJoint
  split
  · dsimp only
    split <;> rfl
  · rfl

theorem incrementJoint_segment (st : State) (joints : List Joint) :
    (incrementJoint st joints).segment = st.segment := by
  unfold incrementJoint
  split
  · dsimp only
    split <;> rfl
  · rfl

theorem incrementJoint_jointIndex_lt (st : State) (joints : List Joint)
    (h : st.jointIndex < joints.length) :
    (incrementJoint st joints).jointIndex < joints.length := by
  unfold incrementJoint
  split
  · dsimp only
    split
    · rename_i h1 _
      exact h1
    · exact h
  · exact h

theorem incrementJoint_jointID (st : State) (joints : List Joint)
    (h : st.jointID = (joints.getD st.jointIndex default).id) :
    (incrementJoint st joints).jointID =
      (joints.getD (incrementJoint st joints).jointIndex default).id := by
  unfold incrementJoint
  split
  · dsimp only
    split
    · rfl
    · exact h
  · exact h

/-- Weight and index invariant of `updateJointState` under the walk's
state consistency (the carried joint id matches the carried joint
index) and the offset precondition of the region. -/
theorem skinOK_updateJointState (st : State)
    (hadj : adjacentDistinct st.segment.stem.joints)
    (hk : st.jointIndex < st.segment.stem.joints.length)
    (hID : st.jointID =
      (st.segment.stem.joints.getD st.jointIndex default).id)
    (h0 : 0 ≤ (incrementJoint st st.segment.stem.joints).jointOffset +
      st.segment.stem.path.getSegmentLength st.sectionIdx)
    (hd : (incrementJoint st st.segment.stem.joints).jointOffset +
      st.segment.stem.path.getSegmentLength st.sectionIdx ≤
      jointRegionDistance st.segment.stem
        (incrementJoint st st.segment.stem.joints).jointIndex) :
    skinOK (updateJointState st).2.2 (updateJointState st).2.1 := by
  have hsec := incrementJoint_sectionIdx st st.segment.stem.joints
  have hseg := incrementJoint_segment st st.segment.stem.joints
  have hkk := incrementJoint_jointIndex_lt st st.segment.stem.joints hk
  have hid2 := incrementJoint_jointID st st.segment.stem.joints hID
  unfold updateJointState
  dsimp only
  split
  · exact ⟨by norm_num, by norm_num, by norm_num, by norm_num, by norm_num,
      Or.inl rfl⟩
  · split
    · exact ⟨by norm_num, by norm_num, by norm_num, by norm_num, by norm_num,
        Or.inl rfl⟩
    · split
      · rename_i hc1 _ hc3
        have hkne : (incrementJoint st st.segment.stem.joints).jointIndex ≠
            0 := by
          intro hz
          exact hc1 ⟨hz, le_of_eq hc3⟩
        refine ⟨by norm_num, by norm_num, by norm_num, by norm_num,
          by norm_num, Or.inr ?_⟩
        dsimp only
        rw [hid2]
        have hne := hadj
          ((incrementJoint st st.segment.stem.joints).jointIndex - 1)
          (by omega)
        have hsub :
            (incrementJoint st st.segment.stem.joints).jointIndex - 1 + 1 =
            (incrementJoint st st.segment.stem.joints).jointIndex := by
          omega
        rw [hsub] at hne
        exact fun hh => hne (Nat.cast_inj.mp hh).symm
      · rcases hsj : setJointInfo st.segment.stem
            ((incrementJoint st st.segment.stem.joints).jointOffset +
              st.segment.stem.path.getSegmentLength
                (incrementJoint st st.segment.stem.joints).sectionIdx)
            ((incrementJoint st st.segment.stem.joints).jointIndex)
          with ⟨w, i⟩
        have hmain := skinOK_setJointInfo st.segment.stem
          ((incrementJoint st st.segment.stem.joints).jointOffset +
            st.segment.stem.path.getSegmentLength
              (incrementJoint st st.segment.stem.joints).sectionIdx)
          ((incrementJoint st st.segment.stem.joints).jointIndex)
          hkk hadj (by rw [hsec]; exact h0) (by rw [hsec]; exact hd)
        rw [hsj] at hmain
        simp only [hsj]
        exact hmain

/-- C2: every skinning assignment the engine produces -- `setJointInfo`
for interior rings and leaves, `updateJointState` for rings, and the
constant single-joint assignments of the no-joints paths -- satisfies
the weight normalization and index-distinctness invariant, under the
caller's preconditions (offset within the joint region, consistent walk
state, neighboring joint ids distinct). -/
theorem C2_weight_normalization (stem : StemData) (off : ℚ) (k : Nat)
    (st : State)
    (hadj : adjacentDistinct stem.joints) (hk : k < stem.joints.length)
    (h0 : 0 ≤ off) (hd : off ≤ jointRegionDistance stem k)
    (hadj2 : adjacentDistinct st.segment.stem.joints)
    (hk2 : st.jointIndex < st.segment.stem.joints.length)
    (hID : st.jointID =
      (st.segment.stem.joints.getD st.jointIndex default).id)
    (h02 : 0 ≤ (incrementJoint st st.segment.stem.joints).jointOffset +
      st.segment.stem.path.getSegmentLength st.sectionIdx)
    (hd2 : (incrementJoint st st.segment.stem.joints).jointOffset +
      st.segment.stem.path.getSegmentLength st.sectionIdx ≤
      jointRegionDistance st.segment.stem
        (incrementJoint st st.segment.stem.joints).jointIndex) :
    skinOK (setJointInfo stem off k).1 (setJointInfo stem off k).2 ∧
    skinOK (updateJointState st).2.2 (updateJointState st).2.1 ∧
    (∀ q : ℚ, skinOK ⟨1, 0⟩ ⟨q, q⟩ ∧ skinOK ⟨1, 0⟩ ⟨q, 0⟩) :=
  ⟨skinOK_setJointInfo stem off k hk hadj h0 hd,
   skinOK_updateJointState st hadj2 hk2 hID h02 hd2,
   fun q =>
    ⟨⟨by norm_num, by norm_num, by norm_num, by norm_num, by norm_num,
      Or.inl rfl⟩,
     ⟨by norm_num, by norm_num, by norm_num, by norm_num, by norm_num,
      Or.inl rfl⟩⟩⟩

theorem C2_weight_normalization_witness :
    (1 : Nat) < stemJ.joints.length ∧
    (skinOK (setJointInfo stemJ (1/2) 1).1 (setJointInfo stemJ (1/2) 1).2 ∧
     skinOK (updateJointState stC2).2.2 (updateJointState stC2).2.1 ∧
     (∀ q : ℚ, skinOK ⟨1, 0⟩ ⟨q, q⟩ ∧ skinOK ⟨1, 0⟩ ⟨q, 0⟩)) :=
  ⟨by decide,
    C2_weight_normalization stemJ (1/2) 1 stC2
      (by intro k hk
          have hb : k < 2 := by simp [stemJ] at hk; omega
          interval_cases k <;> decide)
      (by decide) (by norm_num)
      (by norm_num [jointRegionDistance, stemJ, pathJ, Path.getDistance2])
      (by intro k hk
          have hb : k < 2 := by simp [stC2, stemJ] at hk; omega
          interval_cases k <;> decide)
      (by decide) (by decide)
      (by norm_num [incrementJoint, stC2, stemJ, pathJ,
        Path.getSegmentLength])
      (by norm_num [incrementJoint, jointRegionDistance, stC2, stemJ, pathJ,
        Path.getSegmentLength, Path.getDistance2])⟩

/-- C3 (counterexample): at a ring a quarter of the way from an
interior joint to the next one (ratio 1/4, within half the distance,
where the claim demands 100% on the current joint), the code produces
the blended weights (3/4, 1/4) toward the previous joint. -/
theorem C3_counterexample :
    (setJointInfo stemJ (1/2) 1).1 = ⟨3/4, 1/4⟩ ∧
    (1/2 : ℚ) / jointRegionDistance stemJ 1 < 1/2 ∧
    ((3/4 : ℚ), (1/4 : ℚ)) ≠ ((1 : ℚ), (0 : ℚ)) := by
  refine ⟨by norm_num [setJointInfo, stemJ, pathJ, Path.getDistance2],
    by norm_num [jointRegionDistance, stemJ, pathJ, Path.getDistance2],
    by norm_num⟩

/-- C3 (amended): the blend runs the other way around than the claim
states.  Before the midpoint of a joint region (ratio < 1/2, interior
joint) the weights are `(1/2 + ratio, 1/2 - ratio)` -- a 50/50 split at
the joint's own ring rising linearly to full weight at the midpoint; at
the midpoint exactly the ring is pinned 100% to its joint; past the
midpoint the weights are `(1 - (ratio - 1/2), ratio - 1/2)` toward the
next joint, reaching 50/50 only at that joint; and the two boundary
rings of the stem are always pinned to single-joint weight 1. -/
theorem C3_joint_blend (stem : StemData) (off : ℚ) (k : Nat) (st : State) :
    (off / jointRegionDistance stem k < 1/2 → k ≠ 0 →
      (setJointInfo stem off k).1 =
        ⟨1/2 + off / jointRegionDistance stem k,
         1/2 - off / jointRegionDistance stem k⟩) ∧
    (off / jointRegionDistance stem k = 1/2 →
      (setJointInfo stem off k).1 = ⟨1, 0⟩) ∧
    (1/2 < off / jointRegionDistance stem k → k + 1 < stem.joints.length →
      (setJointInfo stem off k).1 =
        ⟨1 - (off / jointRegionDistance stem k - 1/2),
         off / jointRegionDistance stem k - 1/2⟩) ∧
    ((st.sectionIdx = 0 ∨ st.sectionIdx = st.segment.stem.path.size - 1) →
      (updateJointState st).2.2 = ⟨1, 0⟩) := by
  have hdist : (if (decide (k + 1 ≥ stem.joints.length)) = true then
      stem.path.getDistance2 ((stem.joints.getD k default).pathIndex)
        (stem.path.size - 1)
    else stem.path.getDistance2 ((stem.joints.getD k default).pathIndex)
        ((stem.joints.getD (k + 1) default).pathIndex)) =
      jointRegionDistance stem k := by
    simp only [jointRegionDistance, decide_eq_true_eq]
  refine ⟨?_, ?_, ?_, ?_⟩
  · intro hlt hk0
    have hc1 : ¬((decide (off / jointRegionDistance stem k = 1/2) ||
        decide (off / jointRegionDistance stem k < 1/2) && decide (k = 0) ||
        decide (off / jointRegionDistance stem k > 1/2) &&
          decide (k + 1 ≥ stem.joints.length)) = true) := by
      simp only [Bool.or_eq_true, Bool.and_eq_true, decide_eq_true_eq]
      rintro ((h | ⟨_, h⟩) | ⟨h, _⟩)
      · exact absurd h (ne_of_lt hlt)
      · exact hk0 h
      · linarith
    simp only [setJointInfo, hdist]
    rw [if_neg hc1, if_neg (by push_neg; linarith)]
  · intro hmid
    have hc1 : ((decide (off / jointRegionDistance stem k = 1/2) ||
        decide (off / jointRegionDistance stem k < 1/2) && decide (k = 0) ||
        decide (off / jointRegionDistance stem k > 1/2) &&
          decide (k + 1 ≥ stem.joints.length)) = true) := by
      simp only [Bool.or_eq_true, Bool.and_eq_true, decide_eq_true_eq]
      exact Or.inl (Or.inl hmid)
    simp only [setJointInfo, hdist]
    rw [if_pos hc1]
  · intro hgt hklt
    have hc1 : ¬((decide (off / jointRegionDistance stem k = 1/2) ||
        decide (off / jointRegionDistance stem k < 1/2) && decide (k = 0) ||
        decide (off / jointRegionDistance stem k > 1/2) &&
          decide (k + 1 ≥ stem.joints.length)) = true) := by
      simp only [Bool.or_eq_true, Bool.and_eq_true, decide_eq_true_eq]
      rintro ((h | ⟨h, _⟩) | ⟨_, h⟩)
      · exact absurd h (ne_of_gt hgt)
      · linarith
      · omega
    simp only [setJointInfo, hdist]
    rw [if_neg hc1, if_pos hgt]
  · intro hb
    have hsec := incrementJoint_sectionIdx st st.segment.stem.joints
    unfold updateJointState
    dsimp only
    split
    · rfl
    · split
      · rfl
      · rename_i _ h2
        exfalso
        apply h2
        rw [hsec]
        exact hb

theorem C3_joint_blend_witness :
    (1 : Nat) < stemJ.joints.length ∧
    (((1/2 : ℚ) / jointRegionDistance stemJ 1 < 1/2 → (1 : Nat) ≠ 0 →
      (setJointInfo stemJ (1/2) 1).1 =
        ⟨1/2 + (1/2 : ℚ) / jointRegionDistance stemJ 1,
         1/2 - (1/2 : ℚ) / jointRegionDistance stemJ 1⟩) ∧
    ((1/2 : ℚ) / jointRegionDistance stemJ 1 = 1/2 →
      (setJointInfo stemJ (1/2) 1).1 = ⟨1, 0⟩) ∧
    (1/2 < (1/2 : ℚ) / jointRegionDistance stemJ 1 →
      1 + 1 < stemJ.joints.length →
      (setJointInfo stemJ (1/2) 1).1 =
        ⟨1 - ((1/2 : ℚ) / jointRegionDistance stemJ 1 - 1/2),
         (1/2 : ℚ) / jointRegionDistance stemJ 1 - 1/2⟩) ∧
    ((stC2.sectionIdx = 0 ∨
        stC2.sectionIdx = stC2.segment.stem.path.size - 1) →
      (updateJointState stC2).2.2 = ⟨1, 0⟩)) :=
  ⟨by decide, C3_joint_blend stemJ (1/2) 1 stC2⟩

theorem updateSegmentsAux_getD :
    ∀ (bs : List MBuf) (v i k : Nat), k < bs.length →
      (updateSegmentsAux v i bs).getD k default =
        { bs.getD k default with
          indices := (bs.getD k default).indices.map
            (fun x => x + (v + ((bs.take k).map
              (fun b => b.vertices.length)).sum))
          stemSegs := (bs.getD k default).stemSegs.map
            (shiftSegment
              (v + ((bs.take k).map (fun b => b.vertices.length)).sum)
              (i + ((bs.take k).map (fun b => b.indices.length)).sum))
          leafSegs := (bs.getD k default).leafSegs.map
            (shiftSegment
              (v + ((bs.take k).map (fun b => b.vertices.length)).sum)
              (i + ((bs.take k).map (fun b => b.indices.length)).sum)) } := by
  intro bs
  induction bs with
  | nil => intro v i k hk; simp at hk
  | cons b rest ih =>
    intro v i k hk
    cases k with
    | zero => simp [updateSegmentsAux]
    | succ k2 =>
      have hk2 : k2 < rest.length := by simpa using hk
      have := ih (v + b.vertices.length) (i + b.indices.length) k2 hk2
      simp only [updateSegmentsAux, List.getD_cons_succ, List.take_succ_cons,
        List.map_cons, List.sum_cons]
      rw [this]
      have hv : v + b.vertices.length +
          ((rest.take k2).map (fun b => b.vertices.length)).sum =
          v + (b.vertices.length +
            ((rest.take k2).map (fun b => b.vertices.length)).sum) := by
        omega
      have hi : i + b.indices.length +
          ((rest.take k2).map (fun b => b.indices.length)).sum =
          i + (b.indices.length +
            ((rest.take k2).map (fun b => b.indices.length)).sum) := by
        omega
      rw [hv, hi]

theorem updateSegmentsAux_map_vertices :
    ∀ (bs : List MBuf) (v i : Nat),
      (updateSegmentsAux v i bs).map MBuf.vertices =
        bs.map MBuf.vertices := by
  intro bs
  induction bs with
  | nil => intro v i; rfl
  | cons b rest ih =>
    intro v i
    simp only [updateSegmentsAux, List.map_cons]
    rw [ih]

theorem getVertices_updateSegments (ms : MeshState) :
    getVertices (updateSegments ms) = getVertices ms := by
  unfold getVertices updateSegments
  rcases hb : ms.bufs with _ | ⟨b0, rest⟩
  · simp [hb]
  · simp only [hb, List.map_cons]
    rw [updateSegmentsAux_map_vertices]

theorem flatten_getElem_offset (ls : List (List DVertex)) :
    ∀ (k j : Nat), k < ls.length → j < (ls.getD k []).length →
      ls.flatten[((ls.take k).map List.length).sum + j]? =
        (ls.getD k [])[j]? := by
  induction ls with
  | nil => intro k j hk; simp at hk
  | cons l rest ih =>
    intro k j hk hj
    cases k with
    | zero =>
      simp only [List.take_zero, List.map_nil, List.sum_nil, Nat.zero_add,
        List.flatten_cons, List.getD_cons_zero]
      rw [List.getElem?_append_left (by simpa using hj)]
    | succ k2 =>
      have hk2 : k2 < rest.length := by simpa using hk
      have hj2 : j < (rest.getD k2 []).length := by simpa using hj
      simp only [List.take_succ_cons, List.map_cons, List.sum_cons,
        List.flatten_cons, List.getD_cons_succ]
      rw [Nat.add_assoc, List.getElem?_append_right (by omega)]
      have harg : l.length + (((rest.take k2).map List.length).sum + j) -
          l.length = ((rest.take k2).map List.length).sum + j := by omega
      rw [harg]
      exact ih k2 j hk2 hj2

/-- C4: after the single `updateSegments` pass, every index of buffer
`k ≥ 1` is its pre-merge value plus the total vertex count of the
lower-numbered buffers, every recorded segment's starts are shifted by
those same totals, and resolving a shifted position in the concatenated
vertex array returns exactly the vertex stored at the local offset of
the pre-merge buffer. -/
theorem C4_offset_roundtrip (ms : MeshState) (k j : Nat) (hk1 : 1 ≤ k)
    (hk : k < ms.bufs.length) :
    (indsAt (updateSegments ms) k =
      (indsAt ms k).map (fun x => x + vOffsetBefore ms k)) ∧
    (stemSegsAt (updateSegments ms) k =
      (stemSegsAt ms k).map
        (shiftSegment (vOffsetBefore ms k) (iOffsetBefore ms k))) ∧
    (leafSegsAt (updateSegments ms) k =
      (leafSegsAt ms k).map
        (shiftSegment (vOffsetBefore ms k) (iOffsetBefore ms k))) ∧
    (j < (vertsAt ms k).length →
      (getVertices (updateSegments ms))[vOffsetBefore ms k + j]? =
        (vertsAt ms k)[j]?) := by
  rcases hbufs : ms.bufs with _ | ⟨b0, rest⟩
  · rw [hbufs] at hk; simp at hk
  · have hk2 : k - 1 < rest.length := by
      rw [hbufs] at hk
      simp at hk
      omega
    have hchar := updateSegmentsAux_getD rest b0.vertices.length
      b0.indices.length (k - 1) hk2
    have hgetD : (updateSegments ms).bufs.getD k default =
        (updateSegmentsAux b0.vertices.length b0.indices.length rest).getD
          (k - 1) default := by
      unfold updateSegments
      rw [hbufs]
      simp only
      have hk' : k = (k - 1) + 1 := by omega
      rw [hk']
      exact List.getD_cons_succ ..
    have hoffv : vOffsetBefore ms k = b0.vertices.length +
        ((rest.take (k - 1)).map (fun b => b.vertices.length)).sum := by
      unfold vOffsetBefore
      rw [hbufs]
      have hk' : k = (k - 1) + 1 := by omega
      rw [hk']
      simp
    have hoffi : iOffsetBefore ms k = b0.indices.length +
        ((rest.take (k - 1)).map (fun b => b.indices.length)).sum := by
      unfold iOffsetBefore
      rw [hbufs]
      have hk' : k = (k - 1) + 1 := by omega
      rw [hk']
      simp
    have hsame : ms.bufs.getD k default = rest.getD (k - 1) default := by
      rw [hbufs]
      have hk' : k = (k - 1) + 1 := by omega
      rw [hk']
      exact List.getD_cons_succ ..
    refine ⟨?_, ?_, ?_, ?_⟩
    · unfold indsAt
      rw [hgetD, hchar, hsame]
      simp only
      congr 1
      funext x
      omega
    · unfold stemSegsAt
      rw [hgetD, hchar, hsame]
      simp only
      congr 1
      rw [hoffv, hoffi]
    · unfold leafSegsAt
      rw [hgetD, hchar, hsame]
      simp only
      congr 1
      rw [hoffv, hoffi]
    · intro hj
      rw [getVertices_updateSegments]
      unfold getVertices
      have hlen : k < (ms.bufs.map MBuf.vertices).length := by
        simpa using hk
      have hjd : j < ((ms.bufs.map MBuf.vertices).getD k []).length := by
        have : (ms.bufs.map MBuf.vertices).getD k [] = vertsAt ms k := by
          unfold vertsAt
          rw [List.getD_eq_getElem?_getD, List.getElem?_map,
            List.getD_eq_getElem?_getD, List.getElem?_eq_getElem
              (by exact hk)]
          rfl
        rw [this]
        exact hj
      have hoff : vOffsetBefore ms k =
          (((ms.bufs.map MBuf.vertices).take k).map List.length).sum := by
        unfold vOffsetBefore
        rw [← List.map_take, List.map_map]
        rfl
      rw [hoff]
      rw [flatten_getElem_offset (ms.bufs.map MBuf.vertices) k j hlen hjd]
      have : (ms.bufs.map MBuf.vertices).getD k [] = vertsAt ms k := by
        unfold vertsAt
        rw [List.getD_eq_getElem?_getD, List.getElem?_map,
          List.getD_eq_getElem?_getD, List.getElem?_eq_getElem
            (by exact hk)]
        rfl
      rw [this]

theorem C4_offset_roundtrip_witness :
    (1 : Nat) ≤ 1 ∧ 1 < msC4.bufs.length ∧
    ((indsAt (updateSegments msC4) 1 =
      (indsAt msC4 1).map (fun x => x + vOffsetBefore msC4 1)) ∧
    (stemSegsAt (updateSegments msC4) 1 =
      (stemSegsAt msC4 1).map
        (shiftSegment (vOffsetBefore msC4 1) (iOffsetBefore msC4 1))) ∧
    (leafSegsAt (updateSegments msC4) 1 =
      (leafSegsAt msC4 1).map
        (shiftSegment (vOffsetBefore msC4 1) (iOffsetBefore msC4 1))) ∧
    (0 < (vertsAt msC4 1).length →
      (getVertices (updateSegments msC4))[vOffsetBefore msC4 1 + 0]? =
        (vertsAt msC4 1)[0]?)) :=
  ⟨by decide, by decide, C4_offset_roundtrip msC4 1 0 (by decide) (by decide)⟩

theorem incrementJoint_mesh (st : State) (joints : List Joint) :
    (incrementJoint st joints).mesh = st.mesh := by
  unfold incrementJoint
  split
  · dsimp only
    split <;> rfl
  · rfl

theorem updateJointState_mesh (st : State) :
    (updateJointState st).1.mesh = st.mesh := by
  have h1 := incrementJoint_mesh st st.segment.stem.joints
  unfold updateJointState
  dsimp only
  split
  · exact h1
  · split
    · exact h1
    · split
      · exact h1
      · rcases hsj : setJointInfo st.segment.stem
            ((incrementJoint st st.segment.stem.joints).jointOffset +
              st.segment.stem.path.getSegmentLength
                (incrementJoint st st.segment.stem.joints).sectionIdx)
            ((incrementJoint st st.segment.stem.joints).jointIndex)
          with ⟨w, i⟩
        simp only [hsj]
        exact h1

theorem updateJointState_segment (st : State) :
    (updateJointState st).1.segment = st.segment := by
  have h1 := incrementJoint_segment st st.segment.stem.joints
  unfold updateJointState
  dsimp only
  split
  · exact h1
  · split
    · exact h1
    · split
      · exact h1
      · rcases hsj : setJointInfo st.segment.stem
            ((incrementJoint st st.segment.stem.joints).jointOffset +
              st.segment.stem.path.getSegmentLength
                (incrementJoint st st.segment.stem.joints).sectionIdx)
            ((incrementJoint st st.segment.stem.joints).jointIndex)
          with ⟨w, i⟩
        simp only [hsj]
        exact h1

theorem rotateSection_mesh (G : Geom) (st : State) :
    (rotateSection G st).2.mesh = st.mesh := rfl

theorem rotateSection_segment (G : Geom) (st : State) :
    (rotateSection G st).2.segment = st.segment := rfl

/-- `addSection` is exactly one vertex-batch append to the state's
buffer, and it never touches the walk state's mesh or segment. -/
theorem addSection_push (G : Geom) (plant : Plant) (ms : MeshState)
    (st : State) (rot : Quat) (cs : CrossSection) :
    (∃ vs, (addSection G plant ms st rot cs).1 = pushVerts st.mesh vs ms) ∧
    (addSection G plant ms st rot cs).2.mesh = st.mesh ∧
    (addSection G plant ms st rot cs).2.segment = st.segment := by
  unfold addSection
  dsimp only
  split
  · refine ⟨?_, ?_, ?_⟩
    · rw [updateJointState_mesh]
      exact ⟨_, rfl⟩
    · exact updateJointState_mesh _
    · exact updateJointState_segment _
  · exact ⟨⟨_, rfl⟩, rfl, rfl⟩

theorem onlyVertexWrites_refl (ms : MeshState) : OnlyVertexWrites ms ms :=
  ⟨rfl, rfl, fun _ => rfl, fun _ => rfl, fun _ => rfl, fun _ => rfl⟩

theorem onlyVertexWrites_trans {a b c : MeshState}
    (h1 : OnlyVertexWrites a b) (h2 : OnlyVertexWrites b c) :
    OnlyVertexWrites a c := by
  obtain ⟨x1, x2, x3, x4, x5, x6⟩ := h1
  obtain ⟨y1, y2, y3, y4, y5, y6⟩ := h2
  exact ⟨y1.trans x1, y2.trans x2, fun m => (y3 m).trans (x3 m),
    fun m => (y4 m).trans (x4 m), fun m => (y5 m).trans (x5 m),
    fun m => (y6 m).trans (x6 m)⟩

theorem onlyVertexWrites_setVert (m k : Nat) (v : DVertex)
    (ms : MeshState) : OnlyVertexWrites ms (setVert m k v ms) := by
  refine ⟨length_bufs_modifyBuf .., rfl, fun m' => indsAt_setVert ..,
    fun m' => stemSegsAt_setVert .., fun m' => leafSegsAt_setVert ..,
    fun m' => length_vertsAt_setVert ..⟩

theorem onlyVertexWrites_updateVert (m k : Nat) (f : DVertex → DVertex)
    (ms : MeshState) : OnlyVertexWrites ms (updateVert m k f ms) :=
  onlyVertexWrites_setVert ..

theorem onlyVertexWrites_collarFillLoop (G : Geom) (mesh1 : Nat)
    (controls : List V3) (iw ww : V2) (baseIndex sectionDivisions : Nat)
    (delta : ℚ) :
    ∀ (n j : Nat) (t : ℚ) (ms : MeshState),
      OnlyVertexWrites ms
        (collarFillLoop G mesh1 controls iw ww baseIndex sectionDivisions
          delta t j n ms) := by
  intro n
  induction n with
  | zero => intro j t ms; exact onlyVertexWrites_refl ms
  | succ k ih =>
    intro j t ms
    rw [collarFillLoop]
    exact onlyVertexWrites_trans (onlyVertexWrites_setVert ..) (ih ..)

theorem onlyVertexWrites_collarIter (G : Geom) (child parent : Segment)
    (vertexStart i : Nat) (ms : MeshState) :
    OnlyVertexWrites ms (collarIter G child parent vertexStart i ms).1 := by
  unfold collarIter
  dsimp only
  split
  · exact onlyVertexWrites_refl ms
  · split
    · exact onlyVertexWrites_setVert ..
    · exact onlyVertexWrites_trans (onlyVertexWrites_setVert ..)
        (onlyVertexWrites_collarFillLoop ..)

theorem onlyVertexWrites_connectCollarLoop (G : Geom)
    (child parent : Segment) (vertexStart : Nat) :
    ∀ (n i : Nat) (ms : MeshState),
      OnlyVertexWrites ms
        (connectCollarLoop G child parent vertexStart i n ms).1 := by
  intro n
  induction n with
  | zero => intro i ms; exact onlyVertexWrites_refl ms
  | succ k ih =>
    intro i ms
    rw [connectCollarLoop]
    rcases hit : collarIter G child parent vertexStart i ms with ⟨ms2, ok⟩
    have hiter := onlyVertexWrites_collarIter G child parent vertexStart i ms
    rw [hit] at hiter
    cases ok
    · exact hiter
    · exact onlyVertexWrites_trans hiter (ih ..)

theorem length_bufs_pushVerts (m : Nat) (vs : List DVertex)
    (ms : MeshState) : (pushVerts m vs ms).bufs.length = ms.bufs.length :=
  length_bufs_modifyBuf ..

theorem length_bufs_pushInds (m : Nat) (is : List Nat) (ms : MeshState) :
    (pushInds m is ms).bufs.length = ms.bufs.length :=
  length_bufs_modifyBuf ..

theorem length_bufs_resizeVerts (m n : Nat) (ms : MeshState) :
    (resizeVerts m n ms).bufs.length = ms.bufs.length :=
  length_bufs_modifyBuf ..

theorem length_bufs_resizeInds (m n : Nat) (ms : MeshState) :
    (resizeInds m n ms).bufs.length = ms.bufs.length :=
  length_bufs_modifyBuf ..

theorem length_bufs_setVert (m k : Nat) (v : DVertex) (ms : MeshState) :
    (setVert m k v ms).bufs.length = ms.bufs.length :=
  length_bufs_modifyBuf ..

theorem length_bufs_recordStemSeg (m : Nat) (s : Segment) (ms : MeshState) :
    (recordStemSeg m s ms).bufs.length = ms.bufs.length :=
  length_bufs_modifyBuf ..

theorem length_bufs_recordLeafSeg (m : Nat) (s : Segment) (ms : MeshState) :
    (recordLeafSeg m s ms).bufs.length = ms.bufs.length :=
  length_bufs_modifyBuf ..

theorem vertsAt_pushVerts_oob (m' m : Nat) (vs : List DVertex)
    (ms : MeshState) (h : ¬ m' < ms.bufs.length) :
    vertsAt (pushVerts m vs ms) m' = vertsAt ms m' := by
  rw [vertsAt_pushVerts]
  split
  · rename_i hc
    exact absurd (by rw [hc.1]; exact hc.2) h
  · rfl

theorem vertsAt_resizeVerts_oob (m' m n : Nat) (ms : MeshState)
    (h : ¬ m' < ms.bufs.length) :
    vertsAt (resizeVerts m n ms) m' = vertsAt ms m' := by
  rw [vertsAt_resizeVerts]
  split
  · rename_i hc
    exact absurd (by rw [hc.1]; exact hc.2) h
  · rfl

theorem addSection_snd_segment (G : Geom) (plant : Plant) (ms : MeshState)
    (st : State) (rot : Quat) (cs : CrossSection) :
    (addSection G plant ms st rot cs).2.segment = st.segment :=
  (addSection_push G plant ms st rot cs).2.2

theorem addSection_snd_mesh (G : Geom) (plant : Plant) (ms : MeshState)
    (st : State) (rot : Quat) (cs : CrossSection) :
    (addSection G plant ms st rot cs).2.mesh = st.mesh :=
  (addSection_push G plant ms st rot cs).2.1

theorem addSection_fst_indsAt (G : Geom) (plant : Plant) (ms : MeshState)
    (st : State) (rot : Quat) (cs : CrossSection) (m' : Nat) :
    indsAt (addSection G plant ms st rot cs).1 m' = indsAt ms m' := by
  obtain ⟨vs, hp⟩ := (addSection_push G plant ms st rot cs).1
  rw [hp, indsAt_pushVerts]

theorem addSection_fst_stemSegsAt (G : Geom) (plant : Plant)
    (ms : MeshState) (st : State) (rot : Quat) (cs : CrossSection)
    (m' : Nat) :
    stemSegsAt (addSection G plant ms st rot cs).1 m' = stemSegsAt ms m' := by
  obtain ⟨vs, hp⟩ := (addSection_push G plant ms st rot cs).1
  rw [hp, stemSegsAt_pushVerts]

theorem addSection_fst_leafSegsAt (G : Geom) (plant : Plant)
    (ms : MeshState) (st : State) (rot : Quat) (cs : CrossSection)
    (m' : Nat) :
    leafSegsAt (addSection G plant ms st rot cs).1 m' = leafSegsAt ms m' := by
  obtain ⟨vs, hp⟩ := (addSection_push G plant ms st rot cs).1
  rw [hp, leafSegsAt_pushVerts]

theorem addSection_fst_bufsLength (G : Geom) (plant : Plant)
    (ms : MeshState) (st : State) (rot : Quat) (cs : CrossSection) :
    (addSection G plant ms st rot cs).1.bufs.length = ms.bufs.length := by
  obtain ⟨vs, hp⟩ := (addSection_push G plant ms st rot cs).1
  rw [hp, length_bufs_pushVerts]

theorem addSection_fst_vertsAt_oob (G : Geom) (plant : Plant)
    (ms : MeshState) (st : State) (rot : Quat) (cs : CrossSection)
    (m' : Nat) (h : ¬ m' < ms.bufs.length) :
    vertsAt (addSection G plant ms st rot cs).1 m' = vertsAt ms m' := by
  obtain ⟨vs, hp⟩ := (addSection_push G plant ms st rot cs).1
  rw [hp, vertsAt_pushVerts_oob _ _ _ _ h]

theorem indsAt_reserve (stem : StemData) (mesh : Nat) (ms : MeshState)
    (m' : Nat) :
    indsAt (reserveBranchCollarSpace stem mesh ms) m' = indsAt ms m' :=
  indsAt_resizeVerts ..

theorem stemSegsAt_reserve (stem : StemData) (mesh : Nat) (ms : MeshState)
    (m' : Nat) :
    stemSegsAt (reserveBranchCollarSpace stem mesh ms) m' =
      stemSegsAt ms m' :=
  stemSegsAt_resizeVerts ..

theorem leafSegsAt_reserve (stem : StemData) (mesh : Nat) (ms : MeshState)
    (m' : Nat) :
    leafSegsAt (reserveBranchCollarSpace stem mesh ms) m' =
      leafSegsAt ms m' :=
  leafSegsAt_resizeVerts ..

theorem length_bufs_reserve (stem : StemData) (mesh : Nat)
    (ms : MeshState) :
    (reserveBranchCollarSpace stem mesh ms).bufs.length = ms.bufs.length :=
  length_bufs_modifyBuf ..

theorem vertsAt_reserve_oob (stem : StemData) (mesh : Nat) (ms : MeshState)
    (m' : Nat) (h : ¬ m' < ms.bufs.length) :
    vertsAt (reserveBranchCollarSpace stem mesh ms) m' = vertsAt ms m' :=
  vertsAt_resizeVerts_oob _ _ _ _ h

/-- The collar marker is either `0` (no attempt, or a failed attempt
rolled back) or `pathDivisions + 2` (success). -/
theorem connectCollar_marker (G : Geom) (plant : Plant)
    (child parent : Segment) (vertexStart : Nat) (ms : MeshState) :
    (connectCollar G plant child parent vertexStart ms).2 = 0 ∨
    (connectCollar G plant child parent vertexStart ms).2 =
      child.stem.path.divisions + 2 := by
  unfold connectCollar
  dsimp only
  rcases hloop : connectCollarLoop G child parent vertexStart 0
      (child.stem.sectionDivisions + 1) ms with ⟨msL, ok⟩
  cases ok
  · exact Or.inl rfl
  · exact Or.inr rfl

/-- On a zero marker the child's buffer holds exactly
`child.vertexStart` vertices and `child.indexStart` indices (when the
buffer index is valid; an out-of-range buffer is untouched). -/
theorem connectCollar_zero_lengths (G : Geom) (plant : Plant)
    (child parent : Segment) (vertexStart : Nat) (ms : MeshState) :
    (connectCollar G plant child parent vertexStart ms).2 = 0 →
    (vertsAt (connectCollar G plant child parent vertexStart ms).1
        (selectBuffer child.stem.materialOuter)).length =
      (if selectBuffer child.stem.materialOuter < ms.bufs.length
        then child.vertexStart
        else (vertsAt ms (selectBuffer child.stem.materialOuter)).length) ∧
    (indsAt (connectCollar G plant child parent vertexStart ms).1
        (selectBuffer child.stem.materialOuter)).length =
      (if selectBuffer child.stem.materialOuter < ms.bufs.length
        then child.indexStart
        else (indsAt ms (selectBuffer child.stem.materialOuter)).length) := by
  unfold connectCollar
  dsimp only
  rcases hloop : connectCollarLoop G child parent vertexStart 0
      (child.stem.sectionDivisions + 1) ms with ⟨msL, ok⟩
  have hw := onlyVertexWrites_connectCollarLoop G child parent vertexStart
    (child.stem.sectionDivisions + 1) 0 ms
  rw [hloop] at hw
  dsimp only at hw
  obtain ⟨hwb, hwc, hwi, hws, hwl, hwv⟩ := hw
  cases ok
  · dsimp only
    intro _
    constructor
    · rw [vertsAt_resizeInds, vertsAt_resizeVerts]
      split
      · rename_i hc
        rw [length_listResize, if_pos (by rw [← hwb]; exact hc.2)]
      · rename_i hc
        rw [hwb] at hc
        have hno : ¬ selectBuffer child.stem.materialOuter <
            ms.bufs.length := by
          intro hlt
          exact hc ⟨rfl, hlt⟩
        rw [if_neg hno]
        exact hwv _
    · rw [indsAt_resizeInds]
      have hbr : (resizeVerts (selectBuffer child.stem.materialOuter)
          child.vertexStart msL).bufs.length = ms.bufs.length := by
        rw [length_bufs_resizeVerts, hwb]
      split
      · rename_i hc
        rw [length_listResize, if_pos (by rw [← hbr]; exact hc.2)]
      · rename_i hc
        rw [hbr] at hc
        have hno : ¬ selectBuffer child.stem.materialOuter <
            ms.bufs.length := by
          intro hlt
          exact hc ⟨rfl, hlt⟩
        rw [if_neg hno, indsAt_resizeVerts]
        rw [hwi]
  · dsimp only
    intro h
    exact absurd h (by omega)

/-- Structure of `createBranchCollar`: either the early no-collar exit,
or the two rings plus the reservation followed by `connectCollar` on a
state whose index arrays are untouched, whose buffer count is unchanged,
and whose out-of-range buffers are untouched. -/
theorem createBranchCollar_spec (G : Geom) (plant : Plant)
    (parentStem : Option StemData) (ms : MeshState) (st : State) :
    createBranchCollar G plant parentStem ms st = (ms, st, 0) ∨
    ∃ ms3 st7 collarStart,
      createBranchCollar G plant parentStem ms st =
        ((connectCollar G plant st7.segment
            (findStem ms3 (parentStem.getD default).key) collarStart ms3).1,
         st7,
         (connectCollar G plant st7.segment
            (findStem ms3 (parentStem.getD default).key) collarStart
            ms3).2) ∧
      st7.segment = st.segment ∧
      ms3.bufs.length = ms.bufs.length ∧
      (∀ m', indsAt ms3 m' = indsAt ms m') ∧
      (∀ m', ¬ m' < ms.bufs.length → vertsAt ms3 m' = vertsAt ms m') := by
  unfold createBranchCollar
  dsimp only
  split
  · exact Or.inl rfl
  · right
    refine ⟨_, _, _, rfl, ?_, ?_, ?_, ?_⟩
    · simp only [addSection_snd_segment, rotateSection_segment]
    · simp only [addSection_fst_bufsLength, length_bufs_reserve]
    · intro m'
      simp only [addSection_fst_indsAt, indsAt_reserve]
    · intro m' h
      rw [addSection_fst_vertsAt_oob]
      · rw [vertsAt_reserve_oob]
        · rw [addSection_fst_vertsAt_oob _ _ _ _ _ _ _ h]
        · rw [addSection_fst_bufsLength]
          exact h
      · rw [length_bufs_reserve, addSection_fst_bufsLength]
        exact h

/-- C1: whenever `createBranchCollar` reports marker `0` -- in
particular whenever a fusion attempt failed and was rolled back -- the
child's material buffer holds exactly as many vertices and indices as it
did immediately before the attempt; a nonzero marker is always
`pathDivisions + 2`. -/
theorem C1_collar_rollback (G : Geom) (plant : Plant)
    (parentStem : Option StemData) (ms : MeshState) (st : State)
    (hmesh : st.mesh = selectBuffer st.segment.stem.materialOuter)
    (hv : st.segment.vertexStart = (vertsAt ms st.mesh).length)
    (hi : st.segment.indexStart = (indsAt ms st.mesh).length) :
    ((createBranchCollar G plant parentStem ms st).2.2 = 0 →
      (vertsAt (createBranchCollar G plant parentStem ms st).1
          st.mesh).length = (vertsAt ms st.mesh).length ∧
      (indsAt (createBranchCollar G plant parentStem ms st).1
          st.mesh).length = (indsAt ms st.mesh).length) ∧
    ((createBranchCollar G plant parentStem ms st).2.2 ≠ 0 →
      (createBranchCollar G plant parentStem ms st).2.2 =
        st.segment.stem.path.divisions + 2) := by
  rcases createBranchCollar_spec G plant parentStem ms st with heq |
    ⟨ms3, st7, collarStart, heq, hseg, hlen, hinds, hoob⟩
  · rw [heq]
    exact ⟨fun _ => ⟨rfl, rfl⟩, fun h => absurd rfl h⟩
  · rw [heq]
    dsimp only
    constructor
    · intro hzero
      have hz := connectCollar_zero_lengths G plant st7.segment
        (findStem ms3 (parentStem.getD default).key) collarStart ms3 hzero
      rw [hseg] at hz ⊢
      rw [← hmesh, hlen] at hz
      rcases Nat.lt_or_ge st.mesh ms.bufs.length with hin | hout
      · rw [if_pos hin, if_pos hin] at hz
        exact ⟨hz.1.trans hv, hz.2.trans hi⟩
      · have hnot : ¬ st.mesh < ms.bufs.length := Nat.not_lt.mpr hout
        rw [if_neg hnot, if_neg hnot] at hz
        exact ⟨hz.1.trans (congrArg List.length (hoob st.mesh hnot)),
          hz.2.trans (congrArg List.length (hinds st.mesh))⟩
    · intro hnz
      rcases connectCollar_marker G plant st7.segment
          (findStem ms3 (parentStem.getD default).key) collarStart ms3
        with hmk | hmk
      · exact absurd hmk hnz
      · rw [hmk, hseg]

theorem C1_collar_rollback_witness :
    stateCol.mesh = selectBuffer stateCol.segment.stem.materialOuter ∧
    stateCol.segment.vertexStart = (vertsAt msOne stateCol.mesh).length ∧
    (((createBranchCollar trivialGeom plantCol (some parentCol) msOne
        stateCol).2.2 = 0 →
      (vertsAt (createBranchCollar trivialGeom plantCol (some parentCol)
          msOne stateCol).1 stateCol.mesh).length =
        (vertsAt msOne stateCol.mesh).length ∧
      (indsAt (createBranchCollar trivialGeom plantCol (some parentCol)
          msOne stateCol).1 stateCol.mesh).length =
        (indsAt msOne stateCol.mesh).length) ∧
    ((createBranchCollar trivialGeom plantCol (some parentCol) msOne
        stateCol).2.2 ≠ 0 →
      (createBranchCollar trivialGeom plantCol (some parentCol) msOne
          stateCol).2.2 = stateCol.segment.stem.path.divisions + 2)) :=
  ⟨by decide, by decide,
    C1_collar_rollback trivialGeom plantCol (some parentCol) msOne stateCol
      (by decide) (by decide) (by decide)⟩

theorem frameOK_refl (ms : MeshState) (m pv pi : Nat)
    (h1 : pv ≤ (vertsAt ms m).length) (h2 : pi ≤ (indsAt ms m).length) :
    FrameOK ms ms m pv pi :=
  ⟨h1, h2, fun _ _ => rfl, fun _ _ => rfl⟩

theorem frameOK_setVert {ms0 ms : MeshState} {m pv pi : Nat}
    (h : FrameOK ms0 ms m pv pi) (m' k : Nat) (v : DVertex)
    (hk : m' = m → pv ≤ k) :
    FrameOK ms0 (setVert m' k v ms) m pv pi := by
  obtain ⟨h1, h2, h3, h4⟩ := h
  refine ⟨by rw [length_vertsAt_setVert]; exact h1,
    by rw [indsAt_setVert]; exact h2, ?_, ?_⟩
  · intro j hj
    rw [vertsAt_setVert]
    split
    · rename_i hc
      obtain ⟨hc1, hc2⟩ := hc
      subst hc1
      have hpk : pv ≤ k := hk rfl
      rw [List.getElem?_set_ne (by omega)]
      exact h3 j hj
    · exact h3 j hj
  · intro j hj
    rw [indsAt_setVert]
    exact h4 j hj

theorem frameOK_updateVert {ms0 ms : MeshState} {m pv pi : Nat}
    (h : FrameOK ms0 ms m pv pi) (m' k : Nat) (f : DVertex → DVertex)
    (hk : m' = m → pv ≤ k) :
    FrameOK ms0 (updateVert m' k f ms) m pv pi :=
  frameOK_setVert h m' k _ hk

theorem frameOK_pushVerts {ms0 ms : MeshState} {m pv pi : Nat}
    (h : FrameOK ms0 ms m pv pi) (m' : Nat) (vs : List DVertex) :
    FrameOK ms0 (pushVerts m' vs ms) m pv pi := by
  obtain ⟨h1, h2, h3, h4⟩ := h
  refine ⟨?_, by rw [indsAt_pushVerts]; exact h2, ?_, ?_⟩
  · rw [vertsAt_pushVerts]
    split
    · rename_i hc
      obtain ⟨hc1, hc2⟩ := hc
      subst hc1
      rw [List.length_append]
      omega
    · exact h1
  · intro j hj
    rw [vertsAt_pushVerts]
    split
    · rename_i hc
      obtain ⟨hc1, hc2⟩ := hc
      subst hc1
      rw [List.getElem?_append_left (by omega)]
      exact h3 j hj
    · exact h3 j hj
  · intro j hj
    rw [indsAt_pushVerts]
    exact h4 j hj

theorem frameOK_pushInds {ms0 ms : MeshState} {m pv pi : Nat}
    (h : FrameOK ms0 ms m pv pi) (m' : Nat) (is : List Nat) :
    FrameOK ms0 (pushInds m' is ms) m pv pi := by
  obtain ⟨h1, h2, h3, h4⟩ := h
  refine ⟨by rw [vertsAt_pushInds]; exact h1, ?_, ?_, ?_⟩
  · rw [indsAt_pushInds]
    split
    · rename_i hc
      obtain ⟨hc1, hc2⟩ := hc
      subst hc1
      rw [List.length_append]
      omega
    · exact h2
  · intro j hj
    rw [vertsAt_pushInds]
    exact h3 j hj
  · intro j hj
    rw [indsAt_pushInds]
    split
    · rename_i hc
      obtain ⟨hc1, hc2⟩ := hc
      subst hc1
      rw [List.getElem?_append_left (by omega)]
      exact h4 j hj
    · exact h4 j hj

theorem frameOK_addTriangle {ms0 ms : MeshState} {m pv pi : Nat}
    (h : FrameOK ms0 ms m pv pi) (mesh a b c : Nat) :
    FrameOK ms0 (addTriangle ms mesh a b c) m pv pi :=
  frameOK_pushInds h mesh [a, b, c]

theorem frameOK_resizeVerts {ms0 ms : MeshState} {m pv pi : Nat}
    (h : FrameOK ms0 ms m pv pi) (m' n : Nat) (hn : m' = m → pv ≤ n) :
    FrameOK ms0 (resizeVerts m' n ms) m pv pi := by
  obtain ⟨h1, h2, h3, h4⟩ := h
  refine ⟨?_, by rw [indsAt_resizeVerts]; exact h2, ?_, ?_⟩
  · rw [vertsAt_resizeVerts]
    split
    · rename_i hc
      obtain ⟨hc1, hc2⟩ := hc
      subst hc1
      rw [length_listResize]
      exact hn rfl
    · exact h1
  · intro j hj
    rw [vertsAt_resizeVerts]
    split
    · rename_i hc
      obtain ⟨hc1, hc2⟩ := hc
      subst hc1
      have hpn : pv ≤ n := hn rfl
      rw [getElem?_listResize_lt _ _ (by omega) (by omega)]
      exact h3 j hj
    · exact h3 j hj
  · intro j hj
    rw [indsAt_resizeVerts]
    exact h4 j hj

theorem frameOK_resizeInds {ms0 ms : MeshState} {m pv pi : Nat}
    (h : FrameOK ms0 ms m pv pi) (m' n : Nat) (hn : m' = m → pi ≤ n) :
    FrameOK ms0 (resizeInds m' n ms) m pv pi := by
  obtain ⟨h1, h2, h3, h4⟩ := h
  refine ⟨by rw [vertsAt_resizeInds]; exact h1, ?_, ?_, ?_⟩
  · rw [indsAt_resizeInds]
    split
    · rename_i hc
      obtain ⟨hc1, hc2⟩ := hc
      subst hc1
      rw [length_listResize]
      exact hn rfl
    · exact h2
  · intro j hj
    rw [vertsAt_resizeInds]
    exact h3 j hj
  · intro j hj
    rw [indsAt_resizeInds]
    split
    · rename_i hc
      obtain ⟨hc1, hc2⟩ := hc
      subst hc1
      have hpn : pi ≤ n := hn rfl
      rw [getElem?_listResize_lt _ _ (by omega) (by omega)]
      exact h4 j hj
    · exact h4 j hj

theorem frameOK_collarFillLoop (G : Geom) (mesh1 : Nat)
    (controls : List V3) (iw ww : V2) (baseIndex sectionDivisions : Nat)
    (delta : ℚ) {ms0 : MeshState} {m pv pi : Nat} :
    ∀ (n j : Nat) (t : ℚ) (ms : MeshState), FrameOK ms0 ms m pv pi →
      (mesh1 = m → pv ≤ baseIndex) →
      FrameOK ms0
        (collarFillLoop G mesh1 controls iw ww baseIndex sectionDivisions
          delta t j n ms) m pv pi := by
  intro n
  induction n with
  | zero => intro j t ms h _; exact h
  | succ k ih =>
    intro j t ms h hbase
    rw [collarFillLoop]
    exact ih _ _ _
      (frameOK_setVert h _ _ _
        (fun hm => le_trans (hbase hm) (Nat.le_add_right ..)))
      hbase

theorem frameOK_collarIter (G : Geom) (child parent : Segment)
    (vertexStart i : Nat) {ms0 : MeshState} {m pv pi : Nat}
    (ms : MeshState) (h : FrameOK ms0 ms m pv pi)
    (hcv : selectBuffer child.stem.materialOuter = m →
      pv ≤ child.vertexStart)
    (hvs : selectBuffer child.stem.materialOuter = m → pv ≤ vertexStart) :
    FrameOK ms0 (collarIter G child parent vertexStart i ms).1 m pv pi := by
  unfold collarIter
  dsimp only
  split
  · exact h
  · split
    · exact frameOK_setVert h _ _ _
        (fun hm => le_trans (hcv hm) (Nat.le_add_right ..))
    · exact frameOK_collarFillLoop _ _ _ _ _ _ _ _ _ _ _ _
        (frameOK_setVert h _ _ _
          (fun hm => le_trans (hcv hm) (Nat.le_add_right ..)))
        (fun hm => le_trans (hvs hm) (Nat.le_add_right ..))

theorem frameOK_connectCollarLoop (G : Geom) (child parent : Segment)
    (vertexStart : Nat) {ms0 : MeshState} {m pv pi : Nat}
    (hcv : selectBuffer child.stem.materialOuter = m →
      pv ≤ child.vertexStart)
    (hvs : selectBuffer child.stem.materialOuter = m → pv ≤ vertexStart) :
    ∀ (n i : Nat) (ms : MeshState), FrameOK ms0 ms m pv pi →
      FrameOK ms0 (connectCollarLoop G child parent vertexStart i n ms).1
        m pv pi := by
  intro n
  induction n with
  | zero => intro i ms h; exact h
  | succ k ih =>
    intro i ms h
    rw [connectCollarLoop]
    rcases hit : collarIter G child parent vertexStart i ms with ⟨ms2, ok⟩
    have hiter := frameOK_collarIter G child parent vertexStart i ms h
      hcv hvs
    rw [hit] at hiter
    cases ok
    · exact hiter
    · exact ih _ _ hiter

theorem frameOK_addTriangleRingAux (mesh : Nat) {ms0 : MeshState}
    {m pv pi : Nat} :
    ∀ (n p q : Nat) (ms : MeshState), FrameOK ms0 ms m pv pi →
      FrameOK ms0 (addTriangleRingAux mesh p q n ms) m pv pi := by
  intro n
  induction n with
  | zero => intro p q ms h; exact h
  | succ k ih =>
    intro p q ms h
    rw [addTriangleRingAux]
    exact ih _ _ _ (frameOK_addTriangle (frameOK_addTriangle h ..) ..)

theorem frameOK_collarTriRingLoop (mesh1 sectionDivisions : Nat)
    {ms0 : MeshState} {m pv pi : Nat} :
    ∀ (n p q : Nat) (ms : MeshState), FrameOK ms0 ms m pv pi →
      FrameOK ms0 (collarTriRingLoop mesh1 sectionDivisions p q n ms)
        m pv pi := by
  intro n
  induction n with
  | zero => intro p q ms h; exact h
  | succ k ih =>
    intro p q ms h
    rw [collarTriRingLoop]
    exact ih _ _ _ (frameOK_addTriangleRingAux _ _ _ _ _ h)

theorem frameOK_collarNormalsJLoop (G : Geom) (mesh resolution : Nat)
    (index1 : Nat) (n1 n2 : V3) (divisions : Nat) {ms0 : MeshState}
    {m pv pi : Nat} :
    ∀ (n j : Nat) (ms : MeshState), FrameOK ms0 ms m pv pi →
      (mesh = m → pv ≤ index1) →
      FrameOK ms0
        (collarNormalsJLoop G mesh resolution index1 n1 n2 divisions j n ms)
        m pv pi := by
  intro n
  induction n with
  | zero => intro j ms h _; exact h
  | succ k ih =>
    intro j ms h hbase
    rw [collarNormalsJLoop]
    exact ih _ _
      (frameOK_updateVert h _ _ _
        (fun hm => le_trans (hbase hm) (Nat.le_add_right ..)))
      hbase

theorem frameOK_collarNormalsLoop (G : Geom)
    (mesh resolution divisions : Nat) {ms0 : MeshState} {m pv pi : Nat} :
    ∀ (n p q : Nat) (ms : MeshState), FrameOK ms0 ms m pv pi →
      (mesh = m → pv ≤ p) →
      FrameOK ms0 (collarNormalsLoop G mesh resolution divisions p q n ms)
        m pv pi := by
  intro n
  induction n with
  | zero => intro p q ms h _; exact h
  | succ k ih =>
    intro p q ms h hbase
    rw [collarNormalsLoop]
    exact ih _ _ _
      (frameOK_collarNormalsJLoop _ _ _ _ _ _ _ _ _ _ h hbase)
      (fun hm => le_trans (hbase hm) (Nat.le_succ _))

theorem frameOK_collarUVsJLoop (G : Geom) (mesh size : Nat)
    (aspect radius : ℚ) {ms0 : MeshState} {m pv pi : Nat} :
    ∀ (n index : Nat) (uv : V2) (ms : MeshState), FrameOK ms0 ms m pv pi →
      (mesh = m → pv + n * size ≤ index) →
      FrameOK ms0 (collarUVsJLoop G mesh size aspect radius index uv n ms)
        m pv pi := by
  intro n
  induction n with
  | zero => intro index uv ms h _; exact h
  | succ k ih =>
    intro index uv ms h hbase
    rw [collarUVsJLoop]
    refine ih _ _ _
      (frameOK_updateVert h _ _ _ (fun hm => ?_)) (fun hm => ?_)
    · have hb := hbase hm
      have hmul : (k + 1) * size = k * size + size := by ring
      omega
    · have hb := hbase hm
      have hmul : (k + 1) * size = k * size + size := by ring
      omega

theorem frameOK_collarUVsLoop (G : Geom) (mesh size : Nat)
    (aspect radius : ℚ) (lastIndex divisions : Nat) {ms0 : MeshState}
    {m pv pi : Nat} :
    ∀ (n i : Nat) (ms : MeshState), FrameOK ms0 ms m pv pi →
      (mesh = m → pv + (divisions + 1) * size ≤ lastIndex) →
      FrameOK ms0
        (collarUVsLoop G mesh size aspect radius lastIndex divisions i n ms)
        m pv pi := by
  intro n
  induction n with
  | zero => intro i ms h _; exact h
  | succ k ih =>
    intro i ms h hbase
    rw [collarUVsLoop]
    refine ih _ _
      (frameOK_collarUVsJLoop _ _ _ _ _ _ _ _ _ h (fun hm => ?_)) hbase
    have := hbase hm
    omega

theorem frameOK_setBranchCollarNormals (G : Geom)
    (index1 index2 mesh resolution divisions : Nat) {ms0 : MeshState}
    {m pv pi : Nat} (ms : MeshState) (h : FrameOK ms0 ms m pv pi)
    (hbase : mesh = m → pv ≤ index1) :
    FrameOK ms0
      (setBranchCollarNormals G index1 index2 mesh resolution divisions ms)
      m pv pi :=
  frameOK_collarNormalsLoop _ _ _ _ _ _ _ _ h hbase

theorem frameOK_setBranchCollarUVs (G : Geom) (plant : Plant)
    (lastIndex : Nat) (stem : StemData) (mesh resolution divisions : Nat)
    {ms0 : MeshState} {m pv pi : Nat} (ms : MeshState)
    (h : FrameOK ms0 ms m pv pi)
    (hbase : mesh = m →
      pv + (divisions + 1) * (resolution + 1) ≤ lastIndex) :
    FrameOK ms0
      (setBranchCollarUVs G plant lastIndex stem mesh resolution divisions
        ms) m pv pi :=
  frameOK_collarUVsLoop _ _ _ _ _ _ _ _ _ _ h hbase

/-- C10: a collar-fusion attempt never modifies the parent segment's
recorded geometry.  Under the caller's layout invariant -- when the
child shares the parent's buffer, the parent's recorded vertex and
index ranges lie below the child's own region (`child.vertexStart`,
`child.indexStart`), and the ring-B block starts past the child's
ring A (`child.vertexStart + sectionDivisions + 1 ≤ vertexStart`) --
every vertex and every index inside the parent segment's ranges is
identical before and after `connectCollar`, whether the fusion
succeeds or fails.  The parent's triangles are only read by the
`moveToSurface` ray scan; all writes and both failure-path
truncations target the child's region. -/
theorem C10_parent_frame (G : Geom) (plant : Plant)
    (child parent : Segment) (vertexStart : Nat) (ms : MeshState)
    (hpv : parent.vertexStart + parent.vertexCount ≤
      (vertsAt ms (selectBuffer parent.stem.materialOuter)).length)
    (hpi : parent.indexStart + parent.indexCount ≤
      (indsAt ms (selectBuffer parent.stem.materialOuter)).length)
    (hsep : selectBuffer child.stem.materialOuter =
        selectBuffer parent.stem.materialOuter →
      parent.vertexStart + parent.vertexCount ≤ child.vertexStart ∧
      parent.indexStart + parent.indexCount ≤ child.indexStart ∧
      child.vertexStart + child.stem.sectionDivisions + 1 ≤ vertexStart) :
    (∀ k, k < parent.vertexStart + parent.vertexCount →
      (vertsAt (connectCollar G plant child parent vertexStart ms).1
        (selectBuffer parent.stem.materialOuter))[k]? =
      (vertsAt ms (selectBuffer parent.stem.materialOuter))[k]?) ∧
    (∀ k, k < parent.indexStart + parent.indexCount →
      (indsAt (connectCollar G plant child parent vertexStart ms).1
        (selectBuffer parent.stem.materialOuter))[k]? =
      (indsAt ms (selectBuffer parent.stem.materialOuter))[k]?) := by
  have hcv : selectBuffer child.stem.materialOuter =
      selectBuffer parent.stem.materialOuter →
      parent.vertexStart + parent.vertexCount ≤ child.vertexStart :=
    fun hm => (hsep hm).1
  have hvs : selectBuffer child.stem.materialOuter =
      selectBuffer parent.stem.materialOuter →
      parent.vertexStart + parent.vertexCount ≤ vertexStart := by
    intro hm
    have h := hsep hm
    omega
  have hstart := frameOK_refl ms (selectBuffer parent.stem.materialOuter)
    (parent.vertexStart + parent.vertexCount)
    (parent.indexStart + parent.indexCount) hpv hpi
  unfold connectCollar
  dsimp only
  rcases hloop : connectCollarLoop G child parent vertexStart 0
      (child.stem.sectionDivisions + 1) ms with ⟨msL, ok⟩
  have hframe := frameOK_connectCollarLoop G child parent vertexStart
    hcv hvs (child.stem.sectionDivisions + 1) 0 ms hstart
  rw [hloop] at hframe
  dsimp only at hframe
  cases ok
  · dsimp only
    have h2 := frameOK_resizeInds
      (frameOK_resizeVerts hframe (selectBuffer child.stem.materialOuter)
        child.vertexStart hcv)
      (selectBuffer child.stem.materialOuter) child.indexStart
      (fun hm => (hsep hm).2.1)
    exact ⟨h2.2.2.1, h2.2.2.2⟩
  · dsimp only
    have hA := frameOK_collarTriRingLoop
      (selectBuffer child.stem.materialOuter) child.stem.sectionDivisions
      (child.stem.collarDivisions + 1) child.vertexStart
      (child.vertexStart + child.stem.sectionDivisions + 1) msL hframe
    have hB := frameOK_setBranchCollarNormals G child.vertexStart
      (vertexStart + getBranchCollarSize child.stem)
      (selectBuffer child.stem.materialOuter) child.stem.sectionDivisions
      child.stem.collarDivisions _ hA hcv
    have hC := frameOK_setBranchCollarUVs G plant
      (vertexStart + getBranchCollarSize child.stem) child.stem
      (selectBuffer child.stem.materialOuter) child.stem.sectionDivisions
      child.stem.collarDivisions _ hB ?_
    · exact ⟨hC.2.2.1, hC.2.2.2⟩
    · intro hm
      have h := hsep hm
      unfold getBranchCollarSize
      have e1 : (child.stem.collarDivisions + 1) *
          (child.stem.sectionDivisions + 1) =
          child.stem.collarDivisions * (child.stem.sectionDivisions + 1) +
          (child.stem.sectionDivisions + 1) := by ring
      have e2 : (child.stem.sectionDivisions + 1) *
          child.stem.collarDivisions =
          child.stem.collarDivisions * (child.stem.sectionDivisions + 1) :=
        by ring
      omega

/-- C10 at a concrete input: `msCol2` holds the parent's triangle in
buffer 0; the child fuses into the same buffer above it; every parent
vertex and index survives the attempt unchanged. -/
theorem C10_parent_frame_witness :
    (∀ k, k < parentSegCol.vertexStart + parentSegCol.vertexCount →
      (vertsAt (connectCollar trivialGeom plantCol childSegCol parentSegCol
          5 msCol2).1
        (selectBuffer parentSegCol.stem.materialOuter))[k]? =
      (vertsAt msCol2 (selectBuffer parentSegCol.stem.materialOuter))[k]?) ∧
    (∀ k, k < parentSegCol.indexStart + parentSegCol.indexCount →
      (indsAt (connectCollar trivialGeom plantCol childSegCol parentSegCol
          5 msCol2).1
        (selectBuffer parentSegCol.stem.materialOuter))[k]? =
      (indsAt msCol2 (selectBuffer parentSegCol.stem.materialOuter))[k]?) :=
  C10_parent_frame trivialGeom plantCol childSegCol parentSegCol 5 msCol2
    (by decide) (by decide) (by decide)

theorem invExt_refl (ms : MeshState) : InvExt ms ms :=
  ⟨rfl, fun _ => ⟨rfl, rfl⟩, fun _ => ⟨le_refl _, le_refl _⟩⟩

theorem invExt_trans {a b c : MeshState} (h1 : InvExt a b)
    (h2 : InvExt b c) : InvExt a c := by
  obtain ⟨e1, s1, z1⟩ := h1
  obtain ⟨e2, s2, z2⟩ := h2
  refine ⟨e2.trans e1, fun m => ?_, fun m => ?_⟩
  · exact ⟨(s2 m).1.trans (s1 m).1, (s2 m).2.trans (s1 m).2⟩
  · exact ⟨(z1 m).1.trans (z2 m).1, (z1 m).2.trans (z2 m).2⟩

theorem invExt_pushVerts (m : Nat) (vs : List DVertex) (ms : MeshState) :
    InvExt ms (pushVerts m vs ms) := by
  refine ⟨length_bufs_pushVerts m vs ms,
    fun m' => ⟨stemSegsAt_pushVerts m' m vs ms,
      leafSegsAt_pushVerts m' m vs ms⟩,
    fun m' => ⟨?_, ?_⟩⟩
  · rw [vertsAt_pushVerts]
    split
    · rename_i h
      rw [h.1, List.length_append]
      omega
    · exact le_refl _
  · rw [indsAt_pushVerts]

theorem invExt_pushInds (m : Nat) (is : List Nat) (ms : MeshState) :
    InvExt ms (pushInds m is ms) := by
  refine ⟨length_bufs_pushInds m is ms,
    fun m' => ⟨stemSegsAt_pushInds m' m is ms,
      leafSegsAt_pushInds m' m is ms⟩,
    fun m' => ⟨?_, ?_⟩⟩
  · rw [vertsAt_pushInds]
  · rw [indsAt_pushInds]
    split
    · rename_i h
      rw [h.1, List.length_append]
      omega
    · exact le_refl _

theorem invExt_pushVert (m : Nat) (v : DVertex) (ms : MeshState) :
    InvExt ms (pushVert m v ms) := by
  rw [pushVert_eq_pushVerts]
  exact invExt_pushVerts m [v] ms

theorem invExt_setVert (m k : Nat) (v : DVertex) (ms : MeshState) :
    InvExt ms (setVert m k v ms) := by
  refine ⟨length_bufs_setVert m k v ms,
    fun m' => ⟨stemSegsAt_setVert m' m k v ms,
      leafSegsAt_setVert m' m k v ms⟩,
    fun m' => ⟨?_, ?_⟩⟩
  · rw [length_vertsAt_setVert]
  · rw [indsAt_setVert]

theorem invExt_updateVert (m k : Nat) (f : DVertex → DVertex)
    (ms : MeshState) : InvExt ms (updateVert m k f ms) := by
  unfold updateVert
  exact invExt_setVert m k _ ms

theorem invExt_addTriangle (ms : MeshState) (mesh a b c : Nat) :
    InvExt ms (addTriangle ms mesh a b c) :=
  invExt_pushInds mesh [a, b, c] ms

theorem invExt_resizeVerts_ge (m n : Nat) (ms : MeshState)
    (h : (vertsAt ms m).length ≤ n) : InvExt ms (resizeVerts m n ms) := by
  refine ⟨length_bufs_resizeVerts m n ms,
    fun m' => ⟨stemSegsAt_resizeVerts m' m n ms,
      leafSegsAt_resizeVerts m' m n ms⟩,
    fun m' => ⟨?_, ?_⟩⟩
  · rw [vertsAt_resizeVerts]
    split
    · rename_i hc
      rw [length_listResize, hc.1]
      exact h
    · exact le_refl _
  · rw [indsAt_resizeVerts]

theorem invExt_crossSection (ms : MeshState) (c : CrossSection) :
    InvExt ms { ms with crossSection := c } :=
  ⟨rfl, fun _ => ⟨rfl, rfl⟩, fun _ => ⟨le_refl _, le_refl _⟩⟩

theorem invExt_addTriangleRingAux (mesh : Nat) :
    ∀ (n p q : Nat) (ms : MeshState),
      InvExt ms (addTriangleRingAux mesh p q n ms) := by
  intro n
  induction n with
  | zero => intro p q ms; exact invExt_refl ms
  | succ k ih =>
    intro p q ms
    rw [addTriangleRingAux]
    exact invExt_trans (invExt_trans (invExt_addTriangle ..)
      (invExt_addTriangle ..)) (ih ..)

theorem invExt_addTriangleRing (p q d mesh : Nat) (ms : MeshState) :
    InvExt ms (addTriangleRing p q d mesh ms) :=
  invExt_addTriangleRingAux mesh d p q ms

theorem invExt_collarFillLoop (G : Geom) (mesh1 : Nat)
    (controls : List V3) (iw ww : V2) (baseIndex sectionDivisions : Nat)
    (delta : ℚ) : ∀ (n j : Nat) (t : ℚ) (ms : MeshState),
      InvExt ms (collarFillLoop G mesh1 controls iw ww baseIndex
        sectionDivisions delta t j n ms) := by
  intro n
  induction n with
  | zero => intro j t ms; exact invExt_refl ms
  | succ k ih =>
    intro j t ms
    rw [collarFillLoop]
    exact invExt_trans (invExt_setVert ..) (ih ..)

theorem invExt_collarIter (G : Geom) (child parent : Segment)
    (vertexStart i : Nat) (ms : MeshState) :
    InvExt ms (collarIter G child parent vertexStart i ms).1 := by
  unfold collarIter
  dsimp only
  split
  · exact invExt_refl ms
  · split
    · exact invExt_setVert ..
    · exact invExt_trans (invExt_setVert ..) (invExt_collarFillLoop ..)

theorem invExt_connectCollarLoop (G : Geom) (child parent : Segment)
    (vertexStart : Nat) : ∀ (n i : Nat) (ms : MeshState),
      InvExt ms (connectCollarLoop G child parent vertexStart i n ms).1 := by
  intro n
  induction n with
  | zero => intro i ms; exact invExt_refl ms
  | succ k ih =>
    intro i ms
    rw [connectCollarLoop]
    rcases hit : collarIter G child parent vertexStart i ms with ⟨ms2, ok⟩
    have hiter := invExt_collarIter G child parent vertexStart i ms
    rw [hit] at hiter
    cases ok
    · exact hiter
    · exact invExt_trans hiter (ih ..)

theorem invExt_collarTriRingLoop (mesh1 sectionDivisions : Nat) :
    ∀ (n p q : Nat) (ms : MeshState),
      InvExt ms (collarTriRingLoop mesh1 sectionDivisions p q n ms) := by
  intro n
  induction n with
  | zero => intro p q ms; exact invExt_refl ms
  | succ k ih =>
    intro p q ms
    rw [collarTriRingLoop]
    exact invExt_trans (invExt_addTriangleRingAux ..) (ih ..)

theorem invExt_collarNormalsJLoop (G : Geom) (mesh resolution : Nat)
    (index1 : Nat) (n1 n2 : V3) (divisions : Nat) :
    ∀ (n j : Nat) (ms : MeshState),
      InvExt ms
        (collarNormalsJLoop G mesh resolution index1 n1 n2 divisions j n
          ms) := by
  intro n
  induction n with
  | zero => intro j ms; exact invExt_refl ms
  | succ k ih =>
    intro j ms
    rw [collarNormalsJLoop]
    exact invExt_trans (invExt_updateVert ..) (ih ..)

theorem invExt_collarNormalsLoop (G : Geom)
    (mesh resolution divisions : Nat) : ∀ (n p q : Nat) (ms : MeshState),
      InvExt ms (collarNormalsLoop G mesh resolution divisions p q n ms) := by
  intro n
  induction n with
  | zero => intro p q ms; exact invExt_refl ms
  | succ k ih =>
    intro p q ms
    rw [collarNormalsLoop]
    exact invExt_trans (invExt_collarNormalsJLoop ..) (ih ..)

theorem invExt_collarUVsJLoop (G : Geom) (mesh size : Nat)
    (aspect radius : ℚ) : ∀ (n index : Nat) (uv : V2) (ms : MeshState),
      InvExt ms (collarUVsJLoop G mesh size aspect radius index uv n ms) := by
  intro n
  induction n with
  | zero => intro index uv ms; exact invExt_refl ms
  | succ k ih =>
    intro index uv ms
    rw [collarUVsJLoop]
    exact invExt_trans (invExt_updateVert ..) (ih ..)

theorem invExt_collarUVsLoop (G : Geom) (mesh size : Nat)
    (aspect radius : ℚ) (lastIndex divisions : Nat) :
    ∀ (n i : Nat) (ms : MeshState),
      InvExt ms
        (collarUVsLoop G mesh size aspect radius lastIndex divisions i n
          ms) := by
  intro n
  induction n with
  | zero => intro i ms; exact invExt_refl ms
  | succ k ih =>
    intro i ms
    rw [collarUVsLoop]
    exact invExt_trans (invExt_collarUVsJLoop ..) (ih ..)

theorem invExt_setBranchCollarNormals (G : Geom)
    (index1 index2 mesh resolution divisions : Nat) (ms : MeshState) :
    InvExt ms
      (setBranchCollarNormals G index1 index2 mesh resolution divisions
        ms) :=
  invExt_collarNormalsLoop ..

theorem invExt_setBranchCollarUVs (G : Geom) (plant : Plant)
    (lastIndex : Nat) (stem : StemData) (mesh resolution divisions : Nat)
    (ms : MeshState) :
    InvExt ms
      (setBranchCollarUVs G plant lastIndex stem mesh resolution divisions
        ms) :=
  invExt_collarUVsLoop ..

/-- The whole collar fusion keeps the section pass's effect summary
relative to the reference state `ms0`: the failure path truncates the
child's buffer exactly back to the reference lengths pinned by the
child segment's starts, and every other step appends or overwrites in
place. -/
theorem invExt_connectCollar (G : Geom) (plant : Plant)
    (child parent : Segment) (vertexStart : Nat) {ms0 msI : MeshState}
    (hIE : InvExt ms0 msI)
    (hv : child.vertexStart =
      (vertsAt ms0 (selectBuffer child.stem.materialOuter)).length)
    (hi : child.indexStart =
      (indsAt ms0 (selectBuffer child.stem.materialOuter)).length) :
    InvExt ms0 (connectCollar G plant child parent vertexStart msI).1 := by
  unfold connectCollar
  dsimp only
  rcases hloop : connectCollarLoop G child parent vertexStart 0
      (child.stem.sectionDivisions + 1) msI with ⟨msL, ok⟩
  have hL := invExt_connectCollarLoop G child parent vertexStart
    (child.stem.sectionDivisions + 1) 0 msI
  rw [hloop] at hL
  dsimp only at hL
  have hL0 : InvExt ms0 msL := invExt_trans hIE hL
  cases ok
  · dsimp only
    refine ⟨?_, fun m' => ⟨?_, ?_⟩, fun m' => ⟨?_, ?_⟩⟩
    · rw [length_bufs_resizeInds, length_bufs_resizeVerts]
      exact hL0.1
    · rw [stemSegsAt_resizeInds, stemSegsAt_resizeVerts]
      exact (hL0.2.1 m').1
    · rw [leafSegsAt_resizeInds, leafSegsAt_resizeVerts]
      exact (hL0.2.1 m').2
    · rw [vertsAt_resizeInds, vertsAt_resizeVerts]
      split
      · rename_i hc
        rw [length_listResize, hc.1, ← hv]
      · exact (hL0.2.2 m').1
    · rw [indsAt_resizeInds]
      split
      · rename_i hc
        rw [length_listResize, hc.1, ← hi]
      · rw [indsAt_resizeVerts]
        exact (hL0.2.2 m').2
  · dsimp only
    exact invExt_trans hL0 (invExt_trans (invExt_collarTriRingLoop ..)
      (invExt_trans (invExt_setBranchCollarNormals ..)
        (invExt_setBranchCollarUVs ..)))

theorem invExt_capStemCopyLoop (G : Geom) (sm mesh : Nat) (rot : ℚ) :
    ∀ (n index : Nat) (angle : ℚ) (ms : MeshState),
      InvExt ms (capStemCopyLoop G sm mesh rot index angle n ms) := by
  intro n
  induction n with
  | zero => intro index angle ms; exact invExt_refl ms
  | succ k ih =>
    intro index angle ms
    rw [capStemCopyLoop]
    exact invExt_trans (invExt_pushVert ..) (ih ..)

theorem invExt_capStemFanLoop (mesh s d : Nat) :
    ∀ (n index : Nat) (ms : MeshState),
      InvExt ms (capStemFanLoop mesh s d index n ms) := by
  intro n
  induction n with
  | zero => intro index ms; exact invExt_refl ms
  | succ k ih =>
    intro index ms
    rw [capStemFanLoop]
    exact invExt_trans (invExt_trans (invExt_addTriangle ..)
      (invExt_addTriangle ..)) (ih ..)

theorem invExt_capStem (G : Geom) (stem : StemData) (sm sa : Nat)
    (ms : MeshState) : InvExt ms (capStem G stem sm sa ms) := by
  unfold capStem
  dsimp only
  split
  · exact invExt_trans (invExt_capStemCopyLoop ..)
      (invExt_trans (invExt_capStemFanLoop ..) (invExt_addTriangle ..))
  · exact invExt_trans (invExt_capStemCopyLoop ..) (invExt_capStemFanLoop ..)

theorem invExt_addSection (G : Geom) (plant : Plant) (ms : MeshState)
    (st : State) (rotation : Quat) (cs : CrossSection) :
    InvExt ms (addSection G plant ms st rotation cs).1 := by
  obtain ⟨⟨vs, hvs⟩, -, -⟩ := addSection_push G plant ms st rotation cs
  rw [hvs]
  exact invExt_pushVerts ..

theorem setInitialRotation_segment (G : Geom) (p : Option StemData)
    (st : State) : (setInitialRotation G p st).segment = st.segment := by
  unfold setInitialRotation
  cases p <;> rfl

theorem setInitialJointState_segment (p : Option StemData)
    (pst st : State) :
    (setInitialJointState p pst st).segment = st.segment := by
  unfold setInitialJointState
  dsimp only
  split
  · rfl
  · split <;> rfl

theorem invExt_reserve (stem : StemData) (mesh : Nat) (ms : MeshState) :
    InvExt ms (reserveBranchCollarSpace stem mesh ms) := by
  unfold reserveBranchCollarSpace
  exact invExt_resizeVerts_ge _ _ _ (by omega)

/-- `createBranchCollar` keeps the section pass's effect summary and
preserves the walking state's segment, provided the segment's starts
are pinned to the buffer lengths at the reference state. -/
theorem invExt_createBranchCollar (G : Geom) (plant : Plant)
    (p : Option StemData) (ms : MeshState) (st : State)
    (hv : st.segment.vertexStart =
      (vertsAt ms (selectBuffer st.segment.stem.materialOuter)).length)
    (hi : st.segment.indexStart =
      (indsAt ms (selectBuffer st.segment.stem.materialOuter)).length) :
    InvExt ms (createBranchCollar G plant p ms st).1 ∧
    (createBranchCollar G plant p ms st).2.1.segment = st.segment := by
  unfold createBranchCollar
  dsimp only
  split
  · exact ⟨invExt_refl ms, rfl⟩
  · constructor
    · refine invExt_connectCollar G plant _ _ _ ?_ ?_ ?_
      · exact invExt_trans (invExt_addSection ..)
          (invExt_trans (invExt_reserve ..) (invExt_addSection ..))
      · simp only [addSection_snd_segment, rotateSection_segment]
        exact hv
      · simp only [addSection_snd_segment, rotateSection_segment]
        exact hi
    · simp only [addSection_snd_segment, rotateSection_segment]

theorem createBranchCollar_segment (G : Geom) (plant : Plant)
    (p : Option StemData) (ms : MeshState) (st : State) :
    (createBranchCollar G plant p ms st).2.1.segment = st.segment := by
  unfold createBranchCollar
  dsimp only
  split
  · rfl
  · simp only [addSection_snd_segment, rotateSection_segment]

theorem vertsAt_setCS (c : Prop) [Decidable c] (x : CrossSection)
    (ms : MeshState) (m : Nat) :
    vertsAt (if c then { ms with crossSection := x } else ms) m =
      vertsAt ms m := by
  split <;> rfl

theorem indsAt_setCS (c : Prop) [Decidable c] (x : CrossSection)
    (ms : MeshState) (m : Nat) :
    indsAt (if c then { ms with crossSection := x } else ms) m =
      indsAt ms m := by
  split <;> rfl

theorem invExt_setCS (c : Prop) [Decidable c] (x : CrossSection)
    (ms : MeshState) :
    InvExt ms (if c then { ms with crossSection := x } else ms) := by
  split
  · exact invExt_crossSection ms x
  · exact invExt_refl ms

theorem invExt_sectionLoop (G : Geom) (plant : Plant) (sections : Nat) :
    ∀ (n : Nat) (pr : MeshState × State),
      InvExt pr.1 (sectionLoop G plant sections n pr).1 ∧
      (sectionLoop G plant sections n pr).2.segment = pr.2.segment := by
  intro n
  induction n with
  | zero => intro pr; exact ⟨invExt_refl _, rfl⟩
  | succ k ih =>
    intro pr
    rw [sectionLoop]
    refine ⟨invExt_trans ?_ ((ih _).1), ?_⟩
    · split
      · exact invExt_trans (invExt_addSection ..) (invExt_addTriangleRing ..)
      · exact invExt_addSection ..
    · rw [(ih _).2]
      simp only [addSection_snd_segment, rotateSection_segment]

/-- The main section pass keeps the effect summary relative to its
entry state and preserves the walking state's segment, provided the
segment's starts are pinned to the entry buffer lengths. -/
theorem invExt_addSectionsMain (G : Geom) (plant : Plant)
    (p : Option StemData) (ms : MeshState) (st : State)
    (hv : st.segment.vertexStart =
      (vertsAt ms (selectBuffer st.segment.stem.materialOuter)).length)
    (hi : st.segment.indexStart =
      (indsAt ms (selectBuffer st.segment.stem.materialOuter)).length) :
    InvExt ms (addSectionsMain G plant p ms st).1 ∧
    (addSectionsMain G plant p ms st).2.segment = st.segment := by
  unfold addSectionsMain
  dsimp only
  refine ⟨invExt_trans ?_ ((invExt_sectionLoop G plant _ _ _).1), ?_⟩
  · split
    · split
      · refine invExt_trans (invExt_trans (invExt_crossSection ms _)
          ((invExt_createBranchCollar G plant p _ _ ?_ ?_).1))
          (invExt_addTriangleRing ..)
        · simp only [setInitialRotation_segment]
          exact hv
        · simp only [setInitialRotation_segment]
          exact hi
      · refine invExt_trans (invExt_crossSection ms _)
          ((invExt_createBranchCollar G plant p _ _ ?_ ?_).1)
        · simp only [setInitialRotation_segment]
          exact hv
        · simp only [setInitialRotation_segment]
          exact hi
    · split
      · refine invExt_trans
          ((invExt_createBranchCollar G plant p _ _ ?_ ?_).1)
          (invExt_addTriangleRing ..)
        · simp only [setInitialRotation_segment]
          exact hv
        · simp only [setInitialRotation_segment]
          exact hi
      · refine (invExt_createBranchCollar G plant p _ _ ?_ ?_).1
        · simp only [setInitialRotation_segment]
          exact hv
        · simp only [setInitialRotation_segment]
          exact hi
  · rw [(invExt_sectionLoop G plant _ _ _).2]
    simp only [createBranchCollar_segment, setInitialRotation_segment]

/-- The full section pass (main pass plus the optional end cap). -/
theorem invExt_addSections (G : Geom) (plant : Plant)
    (p : Option StemData) (ms : MeshState) (st : State)
    (hv : st.segment.vertexStart =
      (vertsAt ms (selectBuffer st.segment.stem.materialOuter)).length)
    (hi : st.segment.indexStart =
      (indsAt ms (selectBuffer st.segment.stem.materialOuter)).length) :
    InvExt ms (addSections G plant p ms st).1 ∧
    (addSections G plant p ms st).2.segment = st.segment := by
  have h := invExt_addSectionsMain G plant p ms st hv hi
  unfold addSections
  dsimp only
  constructor
  · split
    · exact invExt_trans h.1 (invExt_capStem ..)
    · exact h.1
  · exact h.2

/-- A state reached by an effect-summary step from an invariant state
is invariant again: the segments are unchanged and no buffer shrank
below the lengths they were recorded against. -/
theorem meshInv_invExt {ms0 ms : MeshState} (hinv : meshInv ms0)
    (hext : InvExt ms0 ms) : meshInv ms := by
  intro m
  have e1 : (ms.bufs.getD m default).stemSegs =
      (ms0.bufs.getD m default).stemSegs := (hext.2.1 m).1
  have e2 : (ms.bufs.getD m default).leafSegs =
      (ms0.bufs.getD m default).leafSegs := (hext.2.1 m).2
  constructor
  · intro t ht
    rw [e1, e2] at ht
    have hw := (hinv m).1 t ht
    have hv := (hext.2.2 m).1
    have hi := (hext.2.2 m).2
    exact ⟨le_trans hw.1 hv, le_trans hw.2 hi⟩
  · rw [e1, e2]
    exact (hinv m).2

/-- Recording a fresh stem segment that starts at the reference
lengths and ends inside the current buffer keeps the invariant: every
previously recorded segment ends at or before the reference lengths,
hence before the new segment starts. -/
theorem meshInv_recordStemSeg {ms0 ms : MeshState} (m : Nat) (s : Segment)
    (hinv : meshInv ms0) (hext : InvExt ms0 ms)
    (hvs : s.vertexStart = (vertsAt ms0 m).length)
    (his : s.indexStart = (indsAt ms0 m).length)
    (hvc : s.vertexStart + s.vertexCount ≤ (vertsAt ms m).length)
    (hic : s.indexStart + s.indexCount ≤ (indsAt ms m).length) :
    meshInv (recordStemSeg m s ms) := by
  have hms : meshInv ms := meshInv_invExt hinv hext
  have hbound : ∀ t, t ∈ (ms.bufs.getD m default).stemSegs ++
      (ms.bufs.getD m default).leafSegs →
      t.vertexStart + t.vertexCount ≤ s.vertexStart ∧
      t.indexStart + t.indexCount ≤ s.indexStart := by
    intro t ht
    have e1 : (ms.bufs.getD m default).stemSegs =
        (ms0.bufs.getD m default).stemSegs := (hext.2.1 m).1
    have e2 : (ms.bufs.getD m default).leafSegs =
        (ms0.bufs.getD m default).leafSegs := (hext.2.1 m).2
    rw [e1, e2] at ht
    have hw := (hinv m).1 t ht
    exact ⟨by rw [hvs]; exact hw.1, by rw [his]; exact hw.2⟩
  intro m'
  show bufInv ((modifyBuf m
    (fun b => { b with stemSegs := b.stemSegs ++ [s] }) ms).bufs.getD m'
      default)
  rw [getD_bufs_modifyBuf]
  split
  · rename_i hc
    constructor
    · intro t ht
      rcases List.mem_append.mp ht with h1 | h1
      · rcases List.mem_append.mp h1 with h2 | h2
        · exact (hms m).1 t (List.mem_append.mpr (Or.inl h2))
        · have h3 : t = s := List.mem_singleton.mp h2
          subst h3
          exact ⟨hvc, hic⟩
      · exact (hms m).1 t (List.mem_append.mpr (Or.inr h1))
    · have hold := (hms m).2
      rw [List.pairwise_append] at hold
      obtain ⟨hps, hpl, hcross⟩ := hold
      rw [List.pairwise_append]
      refine ⟨?_, hpl, ?_⟩
      · rw [List.pairwise_append]
        refine ⟨hps, List.pairwise_singleton .., ?_⟩
        intro a ha b hb
        have hb' : b = s := List.mem_singleton.mp hb
        subst hb'
        have hb2 := hbound a (List.mem_append.mpr (Or.inl ha))
        exact ⟨Or.inl hb2.1, Or.inl hb2.2⟩
      · intro a ha b hb
        rcases List.mem_append.mp ha with h2 | h2
        · exact hcross a h2 b hb
        · have ha' : a = s := List.mem_singleton.mp h2
          subst ha'
          have hb2 := hbound b (List.mem_append.mpr (Or.inr hb))
          exact ⟨Or.inr hb2.1, Or.inr hb2.2⟩
  · exact hms m'

/-- Mirror of `meshInv_recordStemSeg` for the leaf-segment map. -/
theorem meshInv_recordLeafSeg {ms0 ms : MeshState} (m : Nat) (s : Segment)
    (hinv : meshInv ms0) (hext : InvExt ms0 ms)
    (hvs : s.vertexStart = (vertsAt ms0 m).length)
    (his : s.indexStart = (indsAt ms0 m).length)
    (hvc : s.vertexStart + s.vertexCount ≤ (vertsAt ms m).length)
    (hic : s.indexStart + s.indexCount ≤ (indsAt ms m).length) :
    meshInv (recordLeafSeg m s ms) := by
  have hms : meshInv ms := meshInv_invExt hinv hext
  have hbound : ∀ t, t ∈ (ms.bufs.getD m default).stemSegs ++
      (ms.bufs.getD m default).leafSegs →
      t.vertexStart + t.vertexCount ≤ s.vertexStart ∧
      t.indexStart + t.indexCount ≤ s.indexStart := by
    intro t ht
    have e1 : (ms.bufs.getD m default).stemSegs =
        (ms0.bufs.getD m default).stemSegs := (hext.2.1 m).1
    have e2 : (ms.bufs.getD m default).leafSegs =
        (ms0.bufs.getD m default).leafSegs := (hext.2.1 m).2
    rw [e1, e2] at ht
    have hw := (hinv m).1 t ht
    exact ⟨by rw [hvs]; exact hw.1, by rw [his]; exact hw.2⟩
  intro m'
  show bufInv ((modifyBuf m
    (fun b => { b with leafSegs := b.leafSegs ++ [s] }) ms).bufs.getD m'
      default)
  rw [getD_bufs_modifyBuf]
  split
  · rename_i hc
    constructor
    · intro t ht
      rcases List.mem_append.mp ht with h1 | h1
      · exact (hms m).1 t (List.mem_append.mpr (Or.inl h1))
      · rcases List.mem_append.mp h1 with h2 | h2
        · exact (hms m).1 t (List.mem_append.mpr (Or.inr h2))
        · have h3 : t = s := List.mem_singleton.mp h2
          subst h3
          exact ⟨hvc, hic⟩
    · have hold := (hms m).2
      rw [List.pairwise_append] at hold
      obtain ⟨hps, hpl, hcross⟩ := hold
      rw [List.pairwise_append]
      refine ⟨hps, ?_, ?_⟩
      · rw [List.pairwise_append]
        refine ⟨hpl, List.pairwise_singleton .., ?_⟩
        intro a ha b hb
        have hb' : b = s := List.mem_singleton.mp hb
        subst hb'
        have hb2 := hbound a (List.mem_append.mpr (Or.inr ha))
        exact ⟨Or.inl hb2.1, Or.inl hb2.2⟩
      · intro a ha b hb
        rcases List.mem_append.mp hb with h2 | h2
        · exact hcross a ha b h2
        · have hb' : b = s := List.mem_singleton.mp h2
          subst hb'
          have hb2 := hbound a (List.mem_append.mpr (Or.inl ha))
          exact ⟨Or.inl hb2.1, Or.inl hb2.2⟩
  · exact hms m'

theorem ite_append_sub_le (c : Prop) [Decidable c] (A B : List α) :
    A.length + ((if c then A ++ B else A).length - A.length) ≤
      (if c then A ++ B else A).length := by
  split
  · rw [List.length_append]
    omega
  · omega

theorem le_length_ite (c : Prop) [Decidable c] (A A' B : List α)
    (h : c → A.length ≤ A'.length) :
    A.length ≤ (if c then A' ++ B else A).length := by
  split
  · rename_i hcc
    rw [List.length_append]
    have := h hcc
    omega
  · exact le_refl _

/-- One `addLeaf` call keeps the invariant: it appends the transformed
template geometry to the leaf's buffer and records a leaf segment that
starts exactly at the entry lengths and ends at the new lengths. -/
theorem addLeaf_inv (G : Geom) (plant : Plant) (stem : StemData)
    (leafIndex : Nat) (st : State) (ms : MeshState) (hinv : meshInv ms) :
    meshInv (addLeaf G plant stem leafIndex st ms) ∧
    (addLeaf G plant stem leafIndex st ms).bufs.length = ms.bufs.length ∧
    SizesGE ms (addLeaf G plant stem leafIndex st ms) := by
  unfold addLeaf
  dsimp only
  refine ⟨meshInv_recordLeafSeg _ _ hinv ?_ rfl rfl ?_ ?_, ?_, ?_⟩
  · exact invExt_trans (invExt_pushVerts ..) (invExt_pushInds ..)
  · dsimp only
    rw [vertsAt_pushInds, vertsAt_pushVerts]
    exact ite_append_sub_le ..
  · dsimp only
    rw [indsAt_pushInds, indsAt_pushVerts]
    exact ite_append_sub_le ..
  · rw [length_bufs_recordLeafSeg, length_bufs_pushInds,
      length_bufs_pushVerts]
  · intro m'
    refine ⟨?_, ?_⟩
    · rw [vertsAt_recordLeafSeg, vertsAt_pushInds, vertsAt_pushVerts]
      apply le_length_ite
      intro hcc
      rw [hcc.1]
    · rw [indsAt_recordLeafSeg, indsAt_pushInds, indsAt_pushVerts,
        indsAt_pushVerts]
      apply le_length_ite
      intro hcc
      rw [hcc.1]

theorem addLeavesLoop_inv (G : Geom) (plant : Plant) (stem : StemData)
    (st : State) : ∀ (n idx : Nat) (ms : MeshState), meshInv ms →
    meshInv (addLeavesLoop G plant stem st idx n ms) ∧
    (addLeavesLoop G plant stem st idx n ms).bufs.length = ms.bufs.length ∧
    SizesGE ms (addLeavesLoop G plant stem st idx n ms) := by
  intro n
  induction n with
  | zero =>
    intro idx ms h
    exact ⟨h, rfl, fun m => ⟨le_refl _, le_refl _⟩⟩
  | succ k ih =>
    intro idx ms h
    rw [addLeavesLoop]
    have h1 := addLeaf_inv G plant stem idx st ms h
    have h2 := ih (idx + 1) _ h1.1
    refine ⟨h2.1, h2.2.1.trans h1.2.1, fun m => ?_⟩
    exact ⟨(h1.2.2 m).1.trans ((h2.2.2 m).1),
      (h1.2.2 m).2.trans ((h2.2.2 m).2)⟩

theorem addLeaves_inv (G : Geom) (plant : Plant) (stem : StemData)
    (st : State) (ms : MeshState) (hinv : meshInv ms) :
    meshInv (addLeaves G plant stem st ms) ∧
    (addLeaves G plant stem st ms).bufs.length = ms.bufs.length ∧
    SizesGE ms (addLeaves G plant stem st ms) :=
  addLeavesLoop_inv G plant stem st stem.leaves.length 0 ms hinv

mutual

/-- The stem walk keeps the buffer invariant: every recorded segment
(stem or leaf) stays inside its buffer and pairwise disjoint from the
segments recorded before it, and no buffer ever ends below its length
at the walk's entry. -/
theorem addStemT_inv (G : Geom) (plant : Plant) (p : Option StemData)
    (pst : State) (stem : StemT) (ms : MeshState) (hinv : meshInv ms) :
    meshInv (addStemT G plant p pst stem ms).1 ∧
    (addStemT G plant p pst stem ms).1.bufs.length = ms.bufs.length ∧
    SizesGE ms (addStemT G plant p pst stem ms).1 := by
  rcases stem with ⟨d, children⟩
  rw [addStemT]
  dsimp only
  set M := selectBuffer d.materialOuter with hM
  set st0 : State := { (default : State) with
    mesh := M
    segment := { (default : Segment) with
      stem := d
      vertexStart := (vertsAt ms M).length
      indexStart := (indsAt ms M).length } } with hst0
  set stj := setInitialJointState p pst st0 with hstj
  have hv0 : stj.segment = st0.segment := setInitialJointState_segment ..
  have hsec := invExt_addSections G plant p ms stj
    (by rw [hv0, hst0]) (by rw [hv0, hst0])
  set ms1 := (addSections G plant p ms stj).1 with hms1
  set st1 := (addSections G plant p ms stj).2 with hst1
  set sg : Segment := { st1.segment with
    vertexCount := (vertsAt ms1 M).length - st1.segment.vertexStart
    indexCount := (indsAt ms1 M).length - st1.segment.indexStart } with hsg
  set ms2 := recordStemSeg M sg ms1 with hms2
  set st2 : State := { st1 with segment := sg } with hst2
  set ms3 := addLeaves G plant d st2 ms2 with hms3
  have hs1v : st1.segment.vertexStart = (vertsAt ms M).length := by
    rw [hst1, hsec.2, hv0, hst0]
  have hs1i : st1.segment.indexStart = (indsAt ms M).length := by
    rw [hst1, hsec.2, hv0, hst0]
  have hszge : SizesGE ms ms1 := hsec.1.2.2
  have hrec : meshInv ms2 := by
    rw [hms2]
    refine meshInv_recordStemSeg _ _ hinv hsec.1 ?_ ?_ ?_ ?_
    · rw [hsg]
      exact hs1v
    · rw [hsg]
      exact hs1i
    · rw [hsg]
      dsimp only
      have h1 := (hszge M).1
      have h2 := hs1v
      omega
    · rw [hsg]
      dsimp only
      have h1 := (hszge M).2
      have h2 := hs1i
      omega
  have hleaves := addLeaves_inv G plant d st2 ms2 hrec
  rw [← hms3] at hleaves
  have hkids := addStemChildren_inv G plant d st2 children ms3 hleaves.1
  have e2 : ms2.bufs.length = ms1.bufs.length := by
    rw [hms2]
    exact length_bufs_recordStemSeg ..
  have e2v : ∀ m', vertsAt ms2 m' = vertsAt ms1 m' := by
    intro m'
    rw [hms2, vertsAt_recordStemSeg]
  have e2i : ∀ m', indsAt ms2 m' = indsAt ms1 m' := by
    intro m'
    rw [hms2, indsAt_recordStemSeg]
  refine ⟨hkids.1, ?_, ?_⟩
  · rw [hkids.2.1, hleaves.2.1, e2, hsec.1.1]
  · intro m'
    have a1 := hszge m'
    have a3 := hleaves.2.2 m'
    have a4 := hkids.2.2 m'
    rw [e2v m', e2i m'] at a3
    exact ⟨(a1.1.trans a3.1).trans a4.1, (a1.2.trans a3.2).trans a4.2⟩
termination_by sizeOf stem

theorem addStemChildren_inv (G : Geom) (plant : Plant) (d : StemData)
    (st : State) (children : List StemT) (ms : MeshState)
    (hinv : meshInv ms) :
    meshInv (addStemChildren G plant d st children ms) ∧
    (addStemChildren G plant d st children ms).bufs.length =
      ms.bufs.length ∧
    SizesGE ms (addStemChildren G plant d st children ms) := by
  match children with
  | [] =>
    rw [addStemChildren]
    exact ⟨hinv, rfl, fun m => ⟨le_refl _, le_refl _⟩⟩
  | c :: rest =>
    rw [addStemChildren]
    split
    · have h1 := addStemT_inv G plant (some d) st c ms hinv
      have h2 := addStemChildren_inv G plant d st rest _ h1.1
      refine ⟨h2.1, ?_, ?_⟩
      · rw [h2.2.1, h1.2.1]
      · intro m'
        exact ⟨(h1.2.2 m').1.trans ((h2.2.2 m').1),
          (h1.2.2 m').2.trans ((h2.2.2 m').2)⟩
    · exact addStemChildren_inv G plant d st rest ms hinv
termination_by sizeOf children

end

theorem segDisjoint_shift (v i : Nat) (a b : Segment)
    (h : segDisjoint a b) :
    segDisjoint (shiftSegment v i a) (shiftSegment v i b) := by
  unfold segDisjoint shiftSegment at *
  dsimp only at *
  omega

/-- The finalize loop rewrites buffer `k` of its input list into the
same buffer with all recorded segments shifted by one common vertex
and index offset. -/
theorem updateSegmentsAux_getD_segs :
    ∀ (bs : List MBuf) (vs ix k : Nat), ∃ v i,
      ((updateSegmentsAux vs ix bs).getD k default).stemSegs =
        ((bs.getD k default).stemSegs).map (shiftSegment v i) ∧
      ((updateSegmentsAux vs ix bs).getD k default).leafSegs =
        ((bs.getD k default).leafSegs).map (shiftSegment v i) := by
  intro bs
  induction bs with
  | nil =>
    intro vs ix k
    rw [updateSegmentsAux]
    have hd : ([] : List MBuf).getD k default = default := by
      cases k <;> rfl
    rw [hd]
    exact ⟨0, 0, rfl, rfl⟩
  | cons b bs ih =>
    intro vs ix k
    rw [updateSegmentsAux]
    cases k with
    | zero =>
      simp only [List.getD_cons_zero]
      exact ⟨vs, ix, rfl, rfl⟩
    | succ j =>
      simp only [List.getD_cons_succ]
      exact ih (vs + b.vertices.length) (ix + b.indices.length) j

/-- The finalize pass shifts each buffer's segments by one common
offset pair, so pairwise range disjointness inside a buffer is
unchanged. -/
theorem pairwise_updateSegments (ms : MeshState) (m : Nat)
    (h : (allSegsAt ms m).Pairwise segDisjoint) :
    (allSegsAt (updateSegments ms) m).Pairwise segDisjoint := by
  unfold updateSegments
  split
  · exact h
  · rename_i b0 rest heq
    unfold allSegsAt stemSegsAt leafSegsAt at h ⊢
    rw [heq] at h
    dsimp only
    cases m with
    | zero =>
      simp only [List.getD_cons_zero] at h ⊢
      exact h
    | succ k =>
      simp only [List.getD_cons_succ] at h ⊢
      obtain ⟨v, i, hs, hl⟩ :=
        updateSegmentsAux_getD_segs rest b0.vertices.length
          b0.indices.length k
      rw [hs, hl, ← List.map_append]
      exact List.Pairwise.map _
        (fun a b hab => segDisjoint_shift v i a b hab) h

theorem meshInv_initBuffer (plant : Plant) (ms : MeshState) :
    meshInv (initBuffer plant ms) := by
  intro m
  unfold initBuffer
  dsimp only
  have hd : ∀ (n k : Nat),
      (List.replicate n (default : MBuf)).getD k default = default := by
    intro n
    induction n with
    | zero => intro k; cases k <;> rfl
    | succ j ih =>
      intro k
      cases k with
      | zero => rfl
      | succ k' => exact ih k'
  rw [hd]
  constructor
  · intro s hs
    exact absurd hs (List.not_mem_nil s)
  · exact List.Pairwise.nil

/-- C5: within any one material buffer of the state `generate`
produces, the recorded segments (stem and leaf alike) are pairwise
disjoint, both in their vertex ranges and in their index ranges.  The
walk records each segment spanning exactly the region grown since its
own entry point, every prior segment ends at or before that entry, no
operation (including the collar failure rollback) shrinks a buffer
below a recorded segment's end, and the finalize pass shifts all
segments of a buffer by one common offset. -/
theorem C5_segments_disjoint (G : Geom) (plant : Plant) (m : Nat) :
    (allSegsAt (generate G plant) m).Pairwise segDisjoint := by
  unfold generate
  dsimp only
  split
  · rename_i root heq
    apply pairwise_updateSegments
    have h := addStemT_inv G plant none default root
      (initBuffer plant emptyMesh) (meshInv_initBuffer plant emptyMesh)
    exact (h.1 m).2
  · have hb := meshInv_initBuffer plant emptyMesh m
    exact hb.2

end PG
